import Mathlib

/-!
Shallow embedding of `pocketflow/mermaid.py` (the `visualize` function) and
proofs about its graph algorithms: global discovery under a node budget,
per-flow body computation, containment, real-start and exit-source
resolution, edge rewriting, and the Mermaid renderer.

Python object identities (`id(obj)`) are modelled as natural numbers; the
caller's heap is a finite table from identity to an object record.  Attribute
access `getattr(obj, "start_node", None)` is modelled by the `startNode`
field (which is `none` exactly when the attribute is absent or `None`), and
the `successors` dict by an association list from action label to an optional
successor identity (a dict value may be Python `None`).  Raising an exception
is modelled with `Except`.  The two pure memoization caches of the source
(`real_start_cache`, `exit_cache`) are omitted: the embedded functions are
the recursions they memoize, with the `exit_computing` in-progress set passed
explicitly.
-/

namespace Mermaid

/-- A node or flow object on the caller's heap.  `isFlow` is
`isinstance(obj, Flow)`, `startNode` is `getattr(obj, "start_node", None)`,
`succ` is the `successors` dict (action label to successor identity, where a
dict entry may hold `None`), `className` is `obj.__class__.__name__`. -/
structure Obj where
  isFlow : Bool
  startNode : Option Nat
  succ : List (String × Option Nat)
  className : String
deriving DecidableEq, Repr

/-- The caller's heap: a finite identity-to-object table. -/
structure Graph where
  objs : List (Nat × Obj)
deriving DecidableEq, Repr

/-- Dereference an identity. -/
def Graph.lookup (g : Graph) (oid : Nat) : Option Obj :=
  (g.objs.find? (fun p => p.1 = oid)).map Prod.snd

/-- The set of identities that exist on the heap. -/
def Graph.domain (g : Graph) : Finset Nat :=
  (g.objs.map Prod.fst).toFinset

theorem lookup_mem_domain {g : Graph} {oid : Nat} {o : Obj}
    (h : g.lookup oid = some o) : oid ∈ g.domain := by
  unfold Graph.lookup at h
  cases hf : g.objs.find? (fun p => p.1 = oid) with
  | none => simp [hf] at h
  | some p =>
      have hp := List.find?_some hf
      have hmem := List.mem_of_find?_eq_some hf
      simp only [decide_eq_true_eq] at hp
      unfold Graph.domain
      simp only [List.mem_toFinset, List.mem_map]
      exact ⟨p, hmem, hp⟩

/-- `_sort_keys(d)` for the successors dict: the keys in sorted order
(action labels are strings, so the plain `sorted` branch applies; `dedup`
mirrors the uniqueness of dict keys). -/
def sortKeys (succ : List (String × Option Nat)) : List String :=
  ((succ.map Prod.fst).dedup).mergeSort (fun a b => a ≤ b)

/-- `d.get(act)` on the successors dict. -/
def succGet (succ : List (String × Option Nat)) (act : String) : Option Nat :=
  match succ.find? (fun p => p.1 = act) with
  | some p => p.2
  | none => none

/-- The identities enqueued while global discovery expands an object:
its `start_node` first when it is a `Flow` (and the attribute is non-`None`),
then the non-`None` successor values in sorted action order. -/
def childTargets (o : Obj) : List Nat :=
  (if o.isFlow then o.startNode.toList else []) ++
    (sortKeys o.succ).filterMap (fun act => succGet o.succ act)

/-- The edge triples recorded while global discovery expands `cid`. -/
def expandEdges (cid : Nat) (o : Obj) : List (Nat × String × Nat) :=
  (sortKeys o.succ).filterMap
    (fun act => (succGet o.succ act).map (fun t => (cid, act, t)))

theorem lookup_none_not_mem_domain {g : Graph} {oid : Nat}
    (h : g.lookup oid = none) : oid ∉ g.domain := by
  intro hmem
  unfold Graph.domain at hmem
  simp only [List.mem_toFinset, List.mem_map] at hmem
  obtain ⟨p, hp, hpe⟩ := hmem
  have hs : (g.objs.find? (fun p => p.1 = oid)).isSome := by
    apply List.find?_isSome.mpr
    exact ⟨p, hp, by simp [hpe]⟩
  unfold Graph.lookup at h
  rw [Option.map_eq_none'] at h
  rw [h] at hs
  simp at hs

theorem sdiff_insert_card_lt {d computing : Finset Nat} {oid : Nat}
    (hd : oid ∈ d) (hc : oid ∉ computing) :
    (d \ insert oid computing).card < (d \ computing).card := by
  apply Finset.card_lt_card
  constructor
  · intro x hx
    simp only [Finset.mem_sdiff, Finset.mem_insert] at hx ⊢
    exact ⟨hx.1, fun h => hx.2 (Or.inr h)⟩
  · intro hsub
    have : oid ∈ d \ computing := Finset.mem_sdiff.mpr ⟨hd, hc⟩
    have := hsub this
    simp only [Finset.mem_sdiff, Finset.mem_insert] at this
    exact this.2 (Or.inl trivial)

theorem sdiff_insert_of_not_mem {d computing : Finset Nat} {oid : Nat}
    (hd : oid ∉ d) : d \ insert oid computing = d \ computing := by
  ext x
  simp only [Finset.mem_sdiff, Finset.mem_insert]
  constructor
  · intro h; exact ⟨h.1, fun hx => h.2 (Or.inr hx)⟩
  · intro h
    refine ⟨h.1, fun hx => ?_⟩
    rcases hx with hx | hx
    · exact hd (hx ▸ h.1)
    · exact h.2 hx

/-- Step 1 of `visualize`: global breadth-first discovery from the entry
object with the `max_nodes` budget check (a `RuntimeError` when the number of
visited identities exceeds the budget).  The queue mirrors the `deque`: pop
at the front, append newly reachable identities at the back.  Returns the
visit order and the discovered edge list (edge membership mirrors the
`edges` set of the source). -/
def discoverAux (g : Graph) (maxNodes : Nat) (queue : List Nat)
    (visited : Finset Nat) (order : List Nat)
    (edges : List (Nat × String × Nat)) :
    Except String (List Nat × List (Nat × String × Nat)) :=
  match queue with
  | [] => .ok (order, edges)
  | cid :: rest =>
    if cid ∈ visited then
      discoverAux g maxNodes rest visited order edges
    else
      if (order ++ [cid]).length > maxNodes then
        .error "max_nodes exceeded"
      else
        match hl : g.lookup cid with
        | none =>
            discoverAux g maxNodes rest (insert cid visited) (order ++ [cid]) edges
        | some o =>
            discoverAux g maxNodes (rest ++ childTargets o) (insert cid visited)
              (order ++ [cid]) (edges ++ expandEdges cid o)
termination_by ((g.domain \ visited).card, queue.length)
decreasing_by
· exact Prod.Lex.right _ (Nat.lt_succ_self _)
· rw [sdiff_insert_of_not_mem (lookup_none_not_mem_domain hl)]
  exact Prod.Lex.right _ (Nat.lt_succ_self _)
· exact Prod.Lex.left _ _ (sdiff_insert_card_lt (lookup_mem_domain hl) (by assumption))

/-- Global discovery from the entry object under the node budget. -/
def discover (g : Graph) (root : Nat) (maxNodes : Nat) :
    Except String (List Nat × List (Nat × String × Nat)) :=
  discoverAux g maxNodes [root] ∅ [] []

/-- The same breadth-first discovery with no budget check; its visit order
is the set of identities reachable from the entry object, in discovery
order. -/
def bfsAux (g : Graph) (queue : List Nat) (visited : Finset Nat)
    (order : List Nat) (edges : List (Nat × String × Nat)) :
    List Nat × List (Nat × String × Nat) :=
  match queue with
  | [] => (order, edges)
  | cid :: rest =>
    if cid ∈ visited then
      bfsAux g rest visited order edges
    else
      match hl : g.lookup cid with
      | none => bfsAux g rest (insert cid visited) (order ++ [cid]) edges
      | some o =>
          bfsAux g (rest ++ childTargets o) (insert cid visited)
            (order ++ [cid]) (edges ++ expandEdges cid o)
termination_by ((g.domain \ visited).card, queue.length)
decreasing_by
· exact Prod.Lex.right _ (Nat.lt_succ_self _)
· rw [sdiff_insert_of_not_mem (lookup_none_not_mem_domain hl)]
  exact Prod.Lex.right _ (Nat.lt_succ_self _)
· exact Prod.Lex.left _ _ (sdiff_insert_card_lt (lookup_mem_domain hl) (by assumption))

/-- Unbudgeted global discovery from the entry object. -/
def bfs (g : Graph) (root : Nat) : List Nat × List (Nat × String × Nat) :=
  bfsAux g [root] ∅ [] []

/-- The local traversal shared by step 2 (flow bodies) and by the leaf
search of `_exit_source_oids`: breadth-first over `successors` only, never
descending into `start_node`.  Returns the reached identities (the
`body`/`seen` set of the source loops) and the leaves (reached objects
whose successors dict is empty — an object with no `successors` attribute
also counts, since `getattr` then yields the empty dict), both as
duplicate-free lists in first-visit order (the source stores them as sets;
only membership is ever used downstream). -/
def localAux (g : Graph) (queue : List Nat) (seen : Finset Nat)
    (body : List Nat) (leaves : List Nat) : List Nat × List Nat :=
  match queue with
  | [] => (body, leaves)
  | nid :: rest =>
    if nid ∈ seen then
      localAux g rest seen body leaves
    else
      match hl : g.lookup nid with
      | none => localAux g rest (insert nid seen) (body ++ [nid]) (leaves ++ [nid])
      | some o =>
        if o.succ.isEmpty then
          localAux g rest (insert nid seen) (body ++ [nid]) (leaves ++ [nid])
        else
          localAux g (rest ++ (sortKeys o.succ).filterMap (succGet o.succ))
            (insert nid seen) (body ++ [nid]) leaves
termination_by ((g.domain \ seen).card, queue.length)
decreasing_by
· exact Prod.Lex.right _ (Nat.lt_succ_self _)
· rw [sdiff_insert_of_not_mem (lookup_none_not_mem_domain hl)]
  exact Prod.Lex.right _ (Nat.lt_succ_self _)
· exact Prod.Lex.left _ _ (sdiff_insert_card_lt (lookup_mem_domain hl) (by assumption))
· exact Prod.Lex.left _ _ (sdiff_insert_card_lt (lookup_mem_domain hl) (by assumption))

/-- Step 2: the body of a flow — the identities reachable from its
`start_node` via `successors` only, in first-visit order; empty when
`start_node` is absent. -/
def bodyListOf (g : Graph) (fid : Nat) : List Nat :=
  match (g.lookup fid).bind Obj.startNode with
  | none => []
  | some start => (localAux g [start] ∅ [] []).1

/-- The body of a flow, as a set. -/
def bodyOf (g : Graph) (fid : Nat) : Finset Nat :=
  (bodyListOf g fid).toFinset

/-- `isinstance(obj_by_id.get(oid), Flow)`. -/
def isFlowId (g : Graph) (oid : Nat) : Bool :=
  match g.lookup oid with
  | some o => o.isFlow
  | none => false

/-- The discovered flow identities, in global visitation order. -/
def flowIds (g : Graph) (order : List Nat) : List Nat :=
  order.filter (fun oid => isFlowId g oid)

/-- `dict.setdefault k v` on an association list: insert only when absent. -/
def setdefault (m : List (Nat × Nat)) (k v : Nat) : List (Nat × Nat) :=
  if (m.find? (fun p => p.1 = k)).isSome then m else m ++ [(k, v)]

/-- `dict.get k` on an association list. -/
def assocGet (m : List (Nat × Nat)) (k : Nat) : Option Nat :=
  (m.find? (fun p => p.1 = k)).map Prod.snd

/-- Step 3: the containment table `container_flow_by_node_id`, built by
iterating flows in visitation order and `setdefault`-ing every body member
(first flow claims the node; the body set's iteration order is irrelevant
because all its entries carry the same value). -/
def containerMap (g : Graph) (order : List Nat) : List (Nat × Nat) :=
  (flowIds g order).foldl
    (fun m fid =>
      (bodyListOf g fid).foldl
        (fun m' nid => setdefault m' nid fid) m)
    []

/-- `container_flow_by_node_id.get nid`. -/
def containerOf (g : Graph) (order : List Nat) (nid : Nat) : Option Nat :=
  assocGet (containerMap g order) nid

/-- `parent_flow_by_flow_id.get fid`: the container of a flow, admitted only
when it exists, differs from the flow itself, and is itself a flow. -/
def parentOf (g : Graph) (order : List Nat) (fid : Nat) : Option Nat :=
  if fid ∈ flowIds g order then
    match containerOf g order fid with
    | some p => if p ≠ fid ∧ isFlowId g p = true then some p else none
    | none => none
  else none

/-- The loop body of `_real_start`: follow the `start_node` chain while the
current object is a `Flow` with a non-`None` `start_node`, failing with
`none` when an identity repeats (a delegation cycle). -/
def realStartAux (g : Graph) (seen : Finset Nat) (x : Option Nat) : Option Nat :=
  match x with
  | none => none
  | some xid =>
    match hl : g.lookup xid with
    | none => some xid
    | some o =>
      if o.isFlow = true ∧ o.startNode.isSome then
        if xid ∈ seen then none
        else realStartAux g (insert xid seen) o.startNode
      else some xid
termination_by (g.domain \ seen).card
decreasing_by
· exact sdiff_insert_card_lt (lookup_mem_domain hl) (by assumption)

/-- `_real_start(flow_obj)`: resolve the effective entry of a flow by
following its delegation chain. -/
def realStart (g : Graph) (fid : Nat) : Option Nat :=
  realStartAux g ∅ ((g.lookup fid).bind Obj.startNode)

/-- `_is_expanded_flow(obj)`: a `Flow` with a `start_node` and a
successfully resolved real start. -/
def isExpandedFlow (g : Graph) (oid : Nat) : Bool :=
  match g.lookup oid with
  | some o => o.isFlow && o.startNode.isSome && (realStart g oid).isSome
  | none => false

/-- `_entry_oid(obj)`: an expanded flow resolves to its real start, any
other object to itself. -/
def entryOid (g : Graph) (oid : Nat) : Nat :=
  if isExpandedFlow g oid then
    match realStart g oid with
    | some rs => rs
    | none => oid
  else oid

theorem isExpandedFlow_mem_domain {g : Graph} {oid : Nat}
    (h : isExpandedFlow g oid = true) : oid ∈ g.domain := by
  unfold isExpandedFlow at h
  cases hl : g.lookup oid with
  | none => rw [hl] at h; simp at h
  | some o => exact lookup_mem_domain hl

/-- The leaves of the local traversal of `_exit_source_oids` from a flow's
`start_node`, in first-visit order. -/
def leavesListOf (g : Graph) (fid : Nat) : List Nat :=
  match (g.lookup fid).bind Obj.startNode with
  | none => []
  | some start => (localAux g [start] ∅ [] []).2

mutual

/-- Exit-source resolution **as the spec describes it** (the spec-words
side of the comparison): the `exit_computing` in-progress set is an
explicit argument and there is no result cache.  A non-expanded object is
its own sole exit source; a request for a flow already in progress
short-circuits to its real start; otherwise the leaves of the local
traversal are resolved (recursively for expanded-flow leaves), with
fallback to the real start when nothing resolves, and to the flow's own
identity when even that is unavailable.  The source's `_exit_source_oids`
additionally memoizes every completed resolution in `exit_cache`
(mermaid.py lines 193 and 227) — that cache is keyed by identity alone
although the stored value was computed under the then-current
`exit_computing` context, so the program can replay it in a different
context; the source-faithful variant is `exitSourceOidsC` below, and the
divergence between the two is exhibited on a concrete graph (claim C2).
The source's sets are rendered as lists; only membership and emptiness
are used downstream. -/
def exitSourceOids (g : Graph) (computing : Finset Nat) (oid : Nat) : List Nat :=
  if h1 : isExpandedFlow g oid = true then
    if h2 : oid ∈ computing then
      match realStart g oid with
      | some rs => [rs]
      | none => [oid]
    else
      let resolved := exitUnion g (insert oid computing) (leavesListOf g oid)
      let withFallback :=
        if resolved.isEmpty then
          match realStart g oid with
          | some rs => [rs]
          | none => []
        else resolved
      if withFallback.isEmpty then [oid] else withFallback
  else [oid]
termination_by ((g.domain \ computing).card, 0)
decreasing_by
· exact Prod.Lex.left _ _ (sdiff_insert_card_lt (isExpandedFlow_mem_domain h1) h2)

/-- The leaf-resolution loop of the spec-described resolution: union over
the leaf list of the leaf itself (non-expanded) or its recursive exit set
(expanded); a leaf absent from the identity table is skipped.  The
source-faithful cached variant is `exitUnionC` below. -/
def exitUnion (g : Graph) (computing : Finset Nat) (l : List Nat) : List Nat :=
  match l with
  | [] => []
  | lid :: rest =>
    (match g.lookup lid with
     | none => ([] : List Nat)
     | some _ =>
        if isExpandedFlow g lid then exitSourceOids g computing lid
        else [lid]) ++
      exitUnion g computing rest
termination_by ((g.domain \ computing).card, l.length)
decreasing_by
· exact Prod.Lex.right _ (Nat.succ_pos _)
· exact Prod.Lex.right _ (Nat.lt_succ_self _)

end

mutual

/-- `_exit_source_oids(obj)` **as the source computes it**: the
`exit_cache` result memoization is threaded explicitly as an association
list in insertion order, consulted after the expansion check but before
the `exit_computing` in-progress check (mermaid.py lines 191, 193, 195);
the value cached on completion is the fallback-applied result
(`exit_cache[oid] = resolved or {oid}`, line 227).  The in-progress
branch returns the real start (which exists for every expanded flow; the
unreachable `none` case returns the flow's own identity, as in
`exitSourceOids`).  Python-set iterations are rendered in the embedding's
canonical first-visit orders.  Returns the resolved exit sources together
with the updated cache. -/
def exitSourceOidsC (g : Graph) (computing : Finset Nat)
    (cache : List (Nat × List Nat)) (oid : Nat) :
    List Nat × List (Nat × List Nat) :=
  if h1 : isExpandedFlow g oid = true then
    match cache.find? (fun p => p.1 = oid) with
    | some p => (p.2, cache)
    | none =>
      if h2 : oid ∈ computing then
        (match realStart g oid with
         | some rs => [rs]
         | none => [oid], cache)
      else
        let res := exitUnionC g (insert oid computing) cache
          (leavesListOf g oid)
        let withFallback :=
          if res.1.isEmpty then
            match realStart g oid with
            | some rs => [rs]
            | none => []
          else res.1
        let final := if withFallback.isEmpty then [oid] else withFallback
        (final, res.2 ++ [(oid, final)])
  else ([oid], cache)
termination_by ((g.domain \ computing).card, 0)
decreasing_by
· exact Prod.Lex.left _ _ (sdiff_insert_card_lt (isExpandedFlow_mem_domain h1) h2)

/-- The leaf-resolution loop of `_exit_source_oids` with the cache
threaded through the recursive calls: a leaf absent from the identity
table is skipped, an expanded leaf contributes its (possibly cached)
recursive exit set, any other leaf contributes itself. -/
def exitUnionC (g : Graph) (computing : Finset Nat)
    (cache : List (Nat × List Nat)) (l : List Nat) :
    List Nat × List (Nat × List Nat) :=
  match l with
  | [] => ([], cache)
  | lid :: rest =>
    match g.lookup lid with
    | none => exitUnionC g computing cache rest
    | some _ =>
      if isExpandedFlow g lid then
        let r1 := exitSourceOidsC g computing cache lid
        let r2 := exitUnionC g computing r1.2 rest
        (r1.1 ++ r2.1, r2.2)
      else
        let r2 := exitUnionC g computing cache rest
        (lid :: r2.1, r2.2)
termination_by ((g.domain \ computing).card, l.length)
decreasing_by
all_goals
  first
  | exact Prod.Lex.right _ (Nat.lt_succ_self _)
  | exact Prod.Lex.right _ (Nat.succ_pos _)

end

/-- The discovered flow identities that are expanded. -/
def expandedFlowIds (g : Graph) (order : List Nat) : List Nat :=
  (flowIds g order).filter (fun oid => isExpandedFlow g oid)

/-- Step 4 **as the spec describes it**: every discovered edge
`(src, act, tgt)` whose endpoints are discovered is rewritten to one edge
per member of the source's exit source set — resolved afresh per edge —
targeting the resolved entry of `tgt`; identical triples collapse (set
semantics, rendered by `dedup`).  The source's `render_edges` loop shares
`exit_cache` across edges instead (the faithful variant is
`renderEdgesOfC` below; claim C4 exhibits the divergence).  The rendering
pipeline below uses this spec-described set: on every other concrete
graph in this file the two coincide (their edge sources are plain
objects), and the general rendering theorems never inspect the rewritten
sources. -/
def renderEdgesOf (g : Graph) (order : List Nat)
    (edges : List (Nat × String × Nat)) : List (Nat × String × Nat) :=
  (edges.flatMap (fun e =>
    if e.1 ∈ order ∧ e.2.2 ∈ order then
      (exitSourceOids g ∅ e.1).map (fun s => (s, e.2.1, entryOid g e.2.2))
    else [])).dedup

/-- One step of the source's `render_edges` loop: skip an edge with an
undiscovered endpoint, otherwise resolve the source's exit set under the
loop-wide `exit_cache` (the in-progress set is empty between top-level
calls: every completed call removes what it added) and emit one rewritten
edge per member. -/
def renderEdgeStepC (g : Graph) (order : List Nat)
    (acc : List (Nat × String × Nat) × List (Nat × List Nat))
    (e : Nat × String × Nat) :
    List (Nat × String × Nat) × List (Nat × List Nat) :=
  if e.1 ∈ order ∧ e.2.2 ∈ order then
    (acc.1 ++ (exitSourceOidsC g ∅ acc.2 e.1).1.map
        (fun s => (s, e.2.1, entryOid g e.2.2)),
      (exitSourceOidsC g ∅ acc.2 e.1).2)
  else acc

/-- `render_edges` **as the source computes it**: the edge list is
traversed in discovery order with `exit_cache` shared across the whole
loop; identical triples collapse (set semantics, rendered by `dedup`). -/
def renderEdgesOfC (g : Graph) (order : List Nat)
    (edges : List (Nat × String × Nat)) : List (Nat × String × Nat) :=
  ((edges.foldl (renderEdgeStepC g order) ([], [])).1).dedup

theorem parentOf_not_mem_domain {g : Graph} {order : List Nat} {c : Nat}
    (h : c ∉ g.domain) : parentOf g order c = none := by
  unfold parentOf
  have : c ∉ flowIds g order := by
    intro hmem
    unfold flowIds at hmem
    rw [List.mem_filter] at hmem
    have hf := hmem.2
    simp only [decide_eq_true_eq] at hf
    unfold isFlowId at hf
    cases hl : g.lookup c with
    | none => rw [hl] at hf; simp at hf
    | some o => exact h (lookup_mem_domain hl)
  simp [this]

theorem parentOf_some_mem_domain {g : Graph} {order : List Nat} {c p : Nat}
    (h : parentOf g order c = some p) : c ∈ g.domain := by
  by_contra hc
  rw [parentOf_not_mem_domain hc] at h
  simp at h

/-- The loop of the `_ancestors` generator of `_edge_container`, from a
non-`None` container: the chain of containers along
`parent_flow_by_flow_id`, guarded by a seen set against cycles, ending with
the top-level marker `none`. -/
def ancWalkGo (g : Graph) (order : List Nat) (seen : Finset Nat) (c : Nat) :
    List (Option Nat) :=
  if hc : c ∈ seen then [none]
  else
    some c ::
      (match hp : parentOf g order c with
       | none => [none]
       | some p => ancWalkGo g order (insert c seen) p)
termination_by (g.domain \ seen).card
decreasing_by
· exact sdiff_insert_card_lt (parentOf_some_mem_domain hp) hc

/-- The `_ancestors` generator of `_edge_container`. -/
def ancWalk (g : Graph) (order : List Nat) (seen : Finset Nat)
    (x : Option Nat) : List (Option Nat) :=
  match x with
  | none => [none]
  | some c => ancWalkGo g order seen c

/-- `_edge_container(src, tgt)`: the first ancestor (including the
top-level marker) of the source endpoint's container that also occurs in
the target endpoint's ancestor chain. -/
def edgeContainer (g : Graph) (order : List Nat) (srcOid tgtOid : Nat) :
    Option Nat :=
  let tgtAnc := ancWalk g order ∅ (containerOf g order tgtOid)
  ((ancWalk g order ∅ (containerOf g order srcOid)).find?
    (fun c => decide (c ∈ tgtAnc))).join

/-- The discovery index of an identity (`order_index_by_obj_id`). -/
def orderIndex (order : List Nat) (oid : Nat) : Nat :=
  order.indexOf oid

/-- The deterministic sort key of a rewritten edge:
(source visitation index, action label, target visitation index). -/
def edgeKeyLe (order : List Nat) (e1 e2 : Nat × String × Nat) : Bool :=
  decide (orderIndex order e1.1 < orderIndex order e2.1 ∨
    (orderIndex order e1.1 = orderIndex order e2.1 ∧
      (e1.2.1 < e2.2.1 ∨
        (e1.2.1 = e2.2.1 ∧ orderIndex order e1.2.2 ≤ orderIndex order e2.2.2))))

/-- The sorted edge bucket of one container (`edges_by_container[c]`). -/
def bucketEdges (g : Graph) (order : List Nat)
    (redges : List (Nat × String × Nat)) (c : Option Nat) :
    List (Nat × String × Nat) :=
  (redges.filter (fun e => edgeContainer g order e.1 e.2.2 == c)).mergeSort
    (edgeKeyLe order)

/-- `_escape`: double backslashes everywhere; escape pipes in edge labels
and double quotes in node labels. -/
def escapeStr (isEdge : Bool) (s : String) : String :=
  let s1 := s.replace "\\" "\\\\"
  if isEdge then s1.replace "|" "\\|" else s1.replace "\"" "\\\""

/-- `mermaid_id_by_obj_id[oid]`: `n` followed by the visitation index. -/
def mermaidId (order : List Nat) (oid : Nat) : String :=
  "n" ++ toString (orderIndex order oid)

/-- `obj.__class__.__name__`. -/
def classNameOf (g : Graph) (oid : Nat) : String :=
  match g.lookup oid with
  | some o => o.className
  | none => "object"

/-- `names_by_obj_id.get(oid) or []` — the reverse index built from the
namespace dict.  A dict comprehension keeps only the last binding per
object identity, so the list has at most one element. -/
def namesByObjId (g : Graph) (ns : List (String × Nat)) (oid : Nat) :
    List String :=
  match (ns.filter (fun p => decide (p.2 = oid) && (g.lookup p.2).isSome)).getLast? with
  | some p => [p.1]
  | none => []

/-- The mutable state of `_label_for` and the ambient warning channel:
label cache, per-class unnamed counters, the two warn-once sets, and the
warnings issued so far (in program order). -/
structure LabelState where
  cache : List (Nat × String)
  counters : List (String × Nat)
  warnedMulti : Finset Nat
  warnedMissing : Finset Nat
  warnings : List String

/-- Set a per-class counter. -/
def setCounter (m : List (String × Nat)) (k : String) (v : Nat) :
    List (String × Nat) :=
  if (m.find? (fun p => p.1 = k)).isSome then
    m.map (fun p => if p.1 = k then (k, v) else p)
  else m ++ [(k, v)]

/-- `_label_for(obj)`: memoized display-name resolution with warnings for
multiply-bound and unbound objects, and `#n` disambiguation of repeated
class names. -/
def labelFor (g : Graph) (ns : List (String × Nat)) (st : LabelState)
    (oid : Nat) : String × LabelState :=
  match (st.cache.find? (fun p => p.1 = oid)).map Prod.snd with
  | some l => (l, st)
  | none =>
    let cls := classNameOf g oid
    let names := namesByObjId g ns oid
    if names.isEmpty then
      let st1 :=
        if oid ∈ st.warnedMissing then st
        else { st with
          warnedMissing := insert oid st.warnedMissing,
          warnings := st.warnings ++ ["Missing variable name for object " ++ cls] }
      let n := (match st1.counters.find? (fun p => p.1 = cls) with
        | some p => p.2
        | none => 0) + 1
      let label := if n = 1 then cls else cls ++ "#" ++ toString n
      (label, { st1 with
        counters := setCounter st1.counters cls n,
        cache := st1.cache ++ [(oid, label)] })
    else
      let st1 :=
        if names.length > 1 ∧ oid ∉ st.warnedMulti then
          { st with
            warnedMulti := insert oid st.warnedMulti,
            warnings := st.warnings ++ ["Multiple variable names for the same node/flow"] }
        else st
      let label := ((names.mergeSort (fun a b => a ≤ b)).headD cls)
      (label, { st1 with cache := st1.cache ++ [(oid, label)] })

/-- The accumulating render state: emitted lines, label/warning state, and
the `rendered_flows` set.  `opened` and `declared` record, in emission
order, the flow identities whose subgraph blocks were opened and the
identities declared as plain nodes — bookkeeping mirrors of the emitted
lines, used to state theorems about the output structure. -/
structure RenderSt where
  lines : List String
  lst : LabelState
  renderedFlows : Finset Nat
  opened : List Nat
  declared : List Nat

/-- `_node_def(oid)`, threading the label state. -/
def nodeDef (g : Graph) (order : List Nat) (ns : List (String × Nat))
    (st : LabelState) (oid : Nat) : String × LabelState :=
  let (label, st1) := labelFor g ns st oid
  (mermaidId order oid ++ "[\"" ++ escapeStr false label ++ "\"]", st1)

/-- `_edge_line(src, act, tgt)`. -/
def edgeLine (order : List Nat) (showDefault : Bool)
    (e : Nat × String × Nat) : String :=
  let s := mermaidId order e.1
  let t := mermaidId order e.2.2
  if e.2.1 = "default" ∧ showDefault = false then s ++ " --> " ++ t
  else s ++ " -->|" ++ escapeStr true e.2.1 ++ "| " ++ t

/-- The expanded direct-child flows rendered inside a flow's subgraph
block: expanded flows of the body whose container is this flow, by
visitation index. -/
def childFlowIdsOf (g : Graph) (order : List Nat) (fid : Nat) : List Nat :=
  ((bodyListOf g fid).filter (fun nid =>
    isFlowId g nid && decide (nid ∈ expandedFlowIds g order) &&
      (containerOf g order nid == some fid))).mergeSort
    (fun a b => orderIndex order a ≤ orderIndex order b)

/-- The non-expanded direct members declared inside a flow's subgraph
block, by visitation index. -/
def plainIdsOf (g : Graph) (order : List Nat) (fid : Nat) : List Nat :=
  ((bodyListOf g fid).filter (fun nid =>
    !(isExpandedFlow g nid) &&
      (containerOf g order nid == some fid))).mergeSort
    (fun a b => orderIndex order a ≤ orderIndex order b)

/-- The node-declaration loop of `_render_flow`: one indented declaration
line per plain member, threading the label state. -/
def declFold (g : Graph) (order : List Nat) (ns : List (String × Nat))
    (innerIndent : String) (lst : LabelState) (plainIds : List Nat) :
    List String × LabelState :=
  plainIds.foldl
    (fun (acc : List String × LabelState) nid =>
      let dp := nodeDef g order ns acc.2 nid
      (acc.1 ++ [innerIndent ++ dp.1], dp.2))
    (([] : List String), lst)

/-- The render state after emitting a subgraph's opening line and its plain
member declarations, before the child-flow recursion. -/
def subgraphEnterSt (g : Graph) (order : List Nat) (ns : List (String × Nat))
    (fid : Nat) (indent : String) (st : RenderSt) : RenderSt :=
  ⟨st.lines ++
      [indent ++ "subgraph " ++ ("subflow_" ++ mermaidId order fid) ++ "[" ++
        escapeStr false (labelFor g ns st.lst fid).1 ++ "]"] ++
      (declFold g order ns (indent ++ "  ") (labelFor g ns st.lst fid).2
        (plainIdsOf g order fid)).1,
    (declFold g order ns (indent ++ "  ") (labelFor g ns st.lst fid).2
      (plainIdsOf g order fid)).2,
    st.renderedFlows, st.opened ++ [fid],
    st.declared ++ plainIdsOf g order fid⟩

/-- The closing step of `_render_flow`: the container's edge bucket, the
`end` line, and the `rendered_flows` insertion. -/
def subgraphExitSt (g : Graph) (order : List Nat)
    (redges : List (Nat × String × Nat)) (showDefault : Bool) (fid : Nat)
    (indent : String) (st2 : RenderSt) : RenderSt :=
  ⟨st2.lines ++
      ((bucketEdges g order redges (some fid)).map
        (fun e => indent ++ "  " ++ edgeLine order showDefault e)) ++
      [indent ++ "end"],
    st2.lst, insert fid st2.renderedFlows, st2.opened, st2.declared⟩

mutual

/-- `_render_flow(fid, indent)`: emit one subgraph block — re-entry of a
flow already on the active rendering stack returns without emitting.  The
stack is passed as a parameter, which models the add/remove pair of the
source exactly.  (A flow identity missing from the identity table would
raise a `KeyError` in the source; it returns the state unchanged here and
is unreachable for discovered flows.) -/
def renderFlow (g : Graph) (order : List Nat) (ns : List (String × Nat))
    (redges : List (Nat × String × Nat)) (showDefault : Bool)
    (stack : Finset Nat) (fid : Nat) (indent : String) (st : RenderSt) :
    RenderSt :=
  if hs : fid ∈ stack then st
  else
    match hl : g.lookup fid with
    | none => st
    | some _ =>
      subgraphExitSt g order redges showDefault fid indent
        (renderFlowList g order ns redges showDefault (insert fid stack)
          (childFlowIdsOf g order fid) (indent ++ "  ")
          (subgraphEnterSt g order ns fid indent st))
termination_by ((g.domain \ stack).card, 0)
decreasing_by
· exact Prod.Lex.left _ _ (sdiff_insert_card_lt (lookup_mem_domain hl) hs)

/-- Recursion over the expanded direct-child flows of a subgraph. -/
def renderFlowList (g : Graph) (order : List Nat) (ns : List (String × Nat))
    (redges : List (Nat × String × Nat)) (showDefault : Bool)
    (stack : Finset Nat) (l : List Nat) (indent : String) (st : RenderSt) :
    RenderSt :=
  match l with
  | [] => st
  | fid :: rest =>
    renderFlowList g order ns redges showDefault stack rest indent
      (renderFlow g order ns redges showDefault stack fid indent st)
termination_by ((g.domain \ stack).card, l.length)
decreasing_by
· exact Prod.Lex.right _ (by simp only [List.length_cons]; exact Nat.succ_pos _)
· exact Prod.Lex.right _ (by simp only [List.length_cons]; exact Nat.lt_succ_self _)

end

/-- `str.upper()` (character-wise ASCII uppercasing). -/
def strUpper (s : String) : String :=
  ⟨s.data.map Char.toUpper⟩

/-- `(direction or "LR").upper()`: a falsy direction (Python `None` or the
empty string) silently becomes the default before uppercasing. -/
def directionU (direction : Option String) : String :=
  strUpper
    (match direction with
     | none => "LR"
     | some s => if s = "" then "LR" else s)

/-- The valid Mermaid directions. -/
def validDirections : List String := ["LR", "RL", "TB", "TD", "BT"]

/-- Everything `visualize` computes before joining the lines: the emitted
lines, all warnings in program order, the visit order, and the bookkeeping
mirrors of the output structure (opened subgraph blocks, declared plain
nodes, the highlight set). -/
structure CoreOut where
  lines : List String
  warnings : List String
  order : List Nat
  opened : List Nat
  declared : List Nat
  highlights : List Nat

/-- The `start((Start))` marker's target: the entry flow's resolved real
start when it is expanded, the entry object itself otherwise. -/
def startTargetOf (g : Graph) (root : Nat) : Nat :=
  if isExpandedFlow g root then
    match realStart g root with
    | some rs => rs
    | none => root
  else root

/-- One step of the top-level expanded-flow loop (renders a top-level
expanded flow not yet rendered and not the entry flow). -/
def topFlowStep (g : Graph) (order : List Nat) (ns : List (String × Nat))
    (redges : List (Nat × String × Nat)) (showDefault : Bool) (root : Nat)
    (st : RenderSt) (fid : Nat) : RenderSt :=
  if fid ≠ root ∧ fid ∈ expandedFlowIds g order ∧
      containerOf g order fid = none ∧ fid ∉ st.renderedFlows then
    renderFlow g order ns redges showDefault ∅ fid "  " st
  else st

/-- One step of the top-level node-declaration loop (declares a
non-expanded identity with no container). -/
def topDeclStep (g : Graph) (order : List Nat) (ns : List (String × Nat))
    (st : RenderSt) (oid : Nat) : RenderSt :=
  if ¬ isExpandedFlow g oid = true ∧ containerOf g order oid = none then
    ⟨st.lines ++ ["  " ++ (nodeDef g order ns st.lst oid).1],
      (nodeDef g order ns st.lst oid).2, st.renderedFlows, st.opened,
      st.declared ++ [oid]⟩
  else st

/-- One step of the highlight loop: collect the flow's resolved real start
(dedup, as in the source's set) or warn. -/
def highlightStep (g : Graph) (order : List Nat)
    (acc : List Nat × List String) (fid : Nat) : List Nat × List String :=
  match realStart g fid with
  | some rs =>
    if rs ∈ order then
      (if rs ∈ acc.1 then acc.1 else acc.1 ++ [rs], acc.2)
    else (acc.1, acc.2 ++ ["Flow has no resolvable start_node"])
  | none => (acc.1, acc.2 ++ ["Flow has no resolvable start_node"])

/-- The highlight pass: the highlighted identities and the warnings. -/
def highlightsOf (g : Graph) (order : List Nat) (highlightStarts : Bool) :
    List Nat × List String :=
  if highlightStarts then
    (flowIds g order).foldl (highlightStep g order) ([], [])
  else ([], [])

/-- The body of `visualize(flow, namespace, direction=..., show_default=...,
highlight_starts=..., max_nodes=...)`: validation, discovery, resolution,
rendering.  The entry object is `root`; the namespace dict is an
association list from variable name to object identity.  An exception
becomes `Except.error` with its message. -/
def visualizeCore (g : Graph) (root : Nat) (ns : List (String × Nat))
    (direction : Option String) (showDefault : Bool)
    (highlightStarts : Bool) (maxNodes : Int) : Except String CoreOut :=
  if directionU direction ∉ validDirections then
    .error "direction must be one of LR/RL/TB/TD/BT"
  else if maxNodes ≤ 0 then
    .error "max_nodes must be a positive integer"
  else
    let nsWarnings : List String :=
      if ns.isEmpty then ["Missing namespace; falling back to class-name labels"]
      else []
    match discover g root maxNodes.toNat with
    | .error e => .error e
    | .ok (order, edges) =>
      let redges := renderEdgesOf g order edges
      let st0 : RenderSt :=
        ⟨["```mermaid", "flowchart " ++ directionU direction,
            "  start((Start)) --> " ++ mermaidId order (startTargetOf g root)],
          ⟨[], [], ∅, ∅, nsWarnings⟩, ∅, [], []⟩
      let st1 :=
        if root ∈ expandedFlowIds g order then
          renderFlow g order ns redges showDefault ∅ root "  " st0
        else st0
      let st2 := (flowIds g order).foldl
        (topFlowStep g order ns redges showDefault root) st1
      let st3 := order.foldl (topDeclStep g order ns) st2
      let topEdgeLines := (bucketEdges g order redges none).map
        (fun e => "  " ++ edgeLine order showDefault e)
      let hl := highlightsOf g order highlightStarts
      let hlLines :=
        if highlightStarts ∧ ¬ hl.1.isEmpty then
          ["  classDef pf_true_start stroke:#d33,stroke-width:3px,fill:#fff5f5;"] ++
            (hl.1.mergeSort
              (fun a b => orderIndex order a ≤ orderIndex order b)).map
              (fun rid => "  class " ++ mermaidId order rid ++ " pf_true_start")
        else []
      .ok ⟨st3.lines ++ topEdgeLines ++ hlLines ++ ["```"],
        st3.lst.warnings ++ hl.2, order, st3.opened, st3.declared, hl.1⟩

/-- `visualize` proper: the fenced Mermaid text and the warnings issued. -/
def visualize (g : Graph) (root : Nat) (ns : List (String × Nat))
    (direction : Option String) (showDefault : Bool)
    (highlightStarts : Bool) (maxNodes : Int) :
    Except String (String × List String) :=
  (visualizeCore g root ns direction showDefault highlightStarts maxNodes).map
    (fun c => (String.intercalate "\n" c.lines, c.warnings))

/-- An object that is a `Flow` with a non-`None` `start_node` — the
continuation condition of the `_real_start` chase. -/
def isFlowWithStart (g : Graph) (oid : Nat) : Bool :=
  match g.lookup oid with
  | some o => o.isFlow && o.startNode.isSome
  | none => false

/-! Concrete example graphs (identities are arbitrary naturals standing for
`id(obj)` values). -/

/-- Two flows that mutually contain each other: flow 1 starts at node 2
whose successor is flow 3; flow 3 starts at node 4 whose successor is
flow 1.  Then body(1) = {2, 3} and body(3) = {4, 1}. -/
def gParentCycle : Graph := ⟨[
  (1, ⟨true, some 2, [], "Flow"⟩),
  (2, ⟨false, none, [("x", some 3)], "Node"⟩),
  (3, ⟨true, some 4, [], "Flow"⟩),
  (4, ⟨false, none, [("y", some 1)], "Node"⟩)]⟩

/-- Flow 1 delegates to flow 2, which delegates to plain node 3. -/
def gChain : Graph := ⟨[
  (1, ⟨true, some 2, [], "Flow"⟩),
  (2, ⟨true, some 3, [], "Flow"⟩),
  (3, ⟨false, none, [], "Node"⟩)]⟩

/-- A delegation cycle: flow 1's `start_node` is flow 2 and vice versa. -/
def gStartCycle : Graph := ⟨[
  (1, ⟨true, some 2, [], "Flow"⟩),
  (2, ⟨true, some 1, [], "Flow"⟩)]⟩

/-- A start-less flow (3) contained in the body of an unexpanded flow:
flows 1 and 2 delegate to each other (so neither is expanded), and node 3
is reached from flow 1's body via flow 2's successor. -/
def gOmitted : Graph := ⟨[
  (1, ⟨true, some 2, [], "Flow"⟩),
  (2, ⟨true, some 1, [("a", some 3)], "Flow"⟩),
  (3, ⟨true, none, [], "Flow"⟩)]⟩

/-- A flow delegating to a single plain node. -/
def gSimple : Graph := ⟨[
  (1, ⟨true, some 2, [], "Flow"⟩),
  (2, ⟨false, none, [], "Node"⟩)]⟩

/-- The cache-divergence graph: flows 6 and 7 have empty successor dicts
and are each the sole body leaf of the other (via the plain nodes 8 and
9, their respective real starts), and each is in turn the sole body leaf
of an edge-bearing flow (2 and 3, entered through the plain nodes 4 and
5).  The entry flow 1 starts at flow 2 and has a successor edge to flow
3; node 10 is the plain successor target of both 2 and 3. -/
def gCacheDiv : Graph := ⟨[
  (1, ⟨true, some 2, [("a", some 3)], "Flow"⟩),
  (2, ⟨true, some 4, [("z", some 10)], "Flow"⟩),
  (3, ⟨true, some 5, [("w", some 10)], "Flow"⟩),
  (4, ⟨false, none, [("m", some 6)], "Node"⟩),
  (5, ⟨false, none, [("n", some 7)], "Node"⟩),
  (6, ⟨true, some 8, [], "Flow"⟩),
  (7, ⟨true, some 9, [], "Flow"⟩),
  (8, ⟨false, none, [("p", some 7)], "Node"⟩),
  (9, ⟨false, none, [("q", some 6)], "Node"⟩),
  (10, ⟨false, none, [], "Node"⟩)]⟩

/-- A heap is closed when every `start_node` and successor reference of its
objects again lies on the heap — true of any table built from live Python
objects. -/
def Graph.Closed (g : Graph) : Bool :=
  g.objs.all (fun p =>
    (match p.2.startNode with
     | some s => decide (s ∈ g.domain)
     | none => true) &&
    p.2.succ.all (fun q =>
      match q.2 with
      | some t => decide (t ∈ g.domain)
      | none => true))

/-- Reachability from the entry object along the two discovery relations
(`start_node` of flows and non-`None` successors). -/
inductive Reach (g : Graph) (root : Nat) : Nat → Prop where
  | entry : Reach g root root
  | step {x y : Nat} {o : Obj} : Reach g root x → g.lookup x = some o →
      y ∈ childTargets o → Reach g root y

/-- The successor targets enqueued by the local body traversal of an
object (the non-`None` values of its successors dict, in sorted action
order). -/
def succTargets (o : Obj) : List Nat :=
  (sortKeys o.succ).filterMap (succGet o.succ)

/-- A containment chain climbing from `x` up to `c` through the container
mapping while avoiding the active rendering stack — the shape of the
nested `_render_flow` frames through which a subgraph block for `x` can
be opened inside the rendering of `c`. -/
inductive ChainUp (g : Graph) (order : List Nat) (stack : Finset Nat) :
    Nat → Nat → Prop where
  | refl (x : Nat) (hx : x ∉ stack) : ChainUp g order stack x x
  | step {x y z : Nat} (hc : containerOf g order x = some y)
      (hx : x ∉ stack) (h : ChainUp g order stack y z) :
      ChainUp g order stack x z

/-- The top-level rendering invariant: the opened subgraph blocks are
duplicate-free, and each one climbs by a containment chain to a
container-less tree target that has completed rendering. -/
def QInv (g : Graph) (order : List Nat) (st : RenderSt) : Prop :=
  st.opened.Nodup ∧ ∀ x ∈ st.opened, ∃ t, ChainUp g order ∅ x t ∧
    containerOf g order t = none ∧ t ∈ st.renderedFlows

/-- One render state extends another: the emitted lines and the opened and
declared bookkeeping lists only ever grow by appending. -/
def StExtends (st st' : RenderSt) : Prop :=
  (∃ d, st'.lines = st.lines ++ d) ∧ (∃ d, st'.opened = st.opened ++ d) ∧
    (∃ d, st'.declared = st.declared ++ d)

/-! Plain rewriting equations for the well-founded recursions (their bodies
use discriminant-remembering matches for the termination proofs, which
rewriting tactics cannot step through). -/

theorem bfsAux_eq (g : Graph) (queue : List Nat) (visited : Finset Nat)
    (order : List Nat) (edges : List (Nat × String × Nat)) :
    bfsAux g queue visited order edges =
      match queue with
      | [] => (order, edges)
      | cid :: rest =>
        if cid ∈ visited then
          bfsAux g rest visited order edges
        else
          match g.lookup cid with
          | none => bfsAux g rest (insert cid visited) (order ++ [cid]) edges
          | some o =>
              bfsAux g (rest ++ childTargets o) (insert cid visited)
                (order ++ [cid]) (edges ++ expandEdges cid o) := by
  cases queue with
  | nil => rw [bfsAux]
  | cons cid rest =>
    rw [bfsAux]
    by_cases hv : cid ∈ visited
    · simp only [hv, if_true]
    · simp only [hv, if_false]
      cases g.lookup cid <;> rfl

theorem discoverAux_eq (g : Graph) (maxNodes : Nat) (queue : List Nat)
    (visited : Finset Nat) (order : List Nat)
    (edges : List (Nat × String × Nat)) :
    discoverAux g maxNodes queue visited order edges =
      match queue with
      | [] => .ok (order, edges)
      | cid :: rest =>
        if cid ∈ visited then
          discoverAux g maxNodes rest visited order edges
        else
          if (order ++ [cid]).length > maxNodes then
            .error "max_nodes exceeded"
          else
            match g.lookup cid with
            | none =>
                discoverAux g maxNodes rest (insert cid visited)
                  (order ++ [cid]) edges
            | some o =>
                discoverAux g maxNodes (rest ++ childTargets o)
                  (insert cid visited) (order ++ [cid])
                  (edges ++ expandEdges cid o) := by
  cases queue with
  | nil => rw [discoverAux]
  | cons cid rest =>
    rw [discoverAux]
    by_cases hv : cid ∈ visited
    · simp only [hv, if_true]
    · simp only [hv, if_false]
      by_cases hb : (order ++ [cid]).length > maxNodes
      · simp only [hb, if_true]
      · simp only [hb, if_false]
        cases g.lookup cid <;> rfl

theorem localAux_eq (g : Graph) (queue : List Nat) (seen : Finset Nat)
    (body : List Nat) (leaves : List Nat) :
    localAux g queue seen body leaves =
      match queue with
      | [] => (body, leaves)
      | nid :: rest =>
        if nid ∈ seen then
          localAux g rest seen body leaves
        else
          match g.lookup nid with
          | none =>
              localAux g rest (insert nid seen) (body ++ [nid]) (leaves ++ [nid])
          | some o =>
            if o.succ.isEmpty then
              localAux g rest (insert nid seen) (body ++ [nid]) (leaves ++ [nid])
            else
              localAux g (rest ++ (sortKeys o.succ).filterMap (succGet o.succ))
                (insert nid seen) (body ++ [nid]) leaves := by
  cases queue with
  | nil => rw [localAux]
  | cons nid rest =>
    rw [localAux]
    by_cases hv : nid ∈ seen
    · simp only [hv, if_true]
    · simp only [hv, if_false]
      cases g.lookup nid <;> rfl

theorem realStartAux_eq (g : Graph) (seen : Finset Nat) (x : Option Nat) :
    realStartAux g seen x =
      match x with
      | none => none
      | some xid =>
        match g.lookup xid with
        | none => some xid
        | some o =>
          if o.isFlow = true ∧ o.startNode.isSome then
            if xid ∈ seen then none
            else realStartAux g (insert xid seen) o.startNode
          else some xid := by
  cases x with
  | none => rw [realStartAux]
  | some xid =>
    show realStartAux g seen (some xid) =
      match g.lookup xid with
      | none => some xid
      | some o =>
        if o.isFlow = true ∧ o.startNode.isSome then
          if xid ∈ seen then none
          else realStartAux g (insert xid seen) o.startNode
        else some xid
    rw [realStartAux]
    cases g.lookup xid <;> rfl

theorem ancWalkGo_eq (g : Graph) (order : List Nat) (seen : Finset Nat)
    (c : Nat) :
    ancWalkGo g order seen c =
      if c ∈ seen then [none]
      else
        some c ::
          (match parentOf g order c with
           | none => [none]
           | some p => ancWalkGo g order (insert c seen) p) := by
  rw [ancWalkGo]
  by_cases hc : c ∈ seen
  · simp only [hc, dif_pos, if_true]
  · simp only [hc, dif_neg, if_false, not_false_iff]
    cases parentOf g order c <;> rfl

theorem renderFlow_eq (g : Graph) (order : List Nat) (ns : List (String × Nat))
    (redges : List (Nat × String × Nat)) (showDefault : Bool)
    (stack : Finset Nat) (fid : Nat) (indent : String) (st : RenderSt) :
    renderFlow g order ns redges showDefault stack fid indent st =
      if fid ∈ stack then st
      else
        match g.lookup fid with
        | none => st
        | some _ =>
          subgraphExitSt g order redges showDefault fid indent
            (renderFlowList g order ns redges showDefault (insert fid stack)
              (childFlowIdsOf g order fid) (indent ++ "  ")
              (subgraphEnterSt g order ns fid indent st)) := by
  rw [renderFlow]
  by_cases hs : fid ∈ stack
  · simp only [hs, dif_pos, if_true]
  · simp only [hs, dif_neg, if_false, not_false_iff]
    cases g.lookup fid <;> rfl

/-! Constructor-split and condition-guarded corollaries of the equations
above; these are the rewriting rules used to evaluate the pipeline on
concrete graphs (the general equations would fire on symbolic arguments
inside binders and diverge). -/

theorem bfsAux_nil (g : Graph) (visited : Finset Nat) (order : List Nat)
    (edges : List (Nat × String × Nat)) :
    bfsAux g [] visited order edges = (order, edges) := by
  rw [bfsAux_eq]

theorem bfsAux_cons (g : Graph) (cid : Nat) (rest : List Nat)
    (visited : Finset Nat) (order : List Nat)
    (edges : List (Nat × String × Nat)) :
    bfsAux g (cid :: rest) visited order edges =
      if cid ∈ visited then
        bfsAux g rest visited order edges
      else
        match g.lookup cid with
        | none => bfsAux g rest (insert cid visited) (order ++ [cid]) edges
        | some o =>
            bfsAux g (rest ++ childTargets o) (insert cid visited)
              (order ++ [cid]) (edges ++ expandEdges cid o) := by
  rw [bfsAux_eq]

theorem discoverAux_nil (g : Graph) (maxNodes : Nat) (visited : Finset Nat)
    (order : List Nat) (edges : List (Nat × String × Nat)) :
    discoverAux g maxNodes [] visited order edges = .ok (order, edges) := by
  rw [discoverAux_eq]

theorem discoverAux_cons (g : Graph) (maxNodes : Nat) (cid : Nat)
    (rest : List Nat) (visited : Finset Nat) (order : List Nat)
    (edges : List (Nat × String × Nat)) :
    discoverAux g maxNodes (cid :: rest) visited order edges =
      if cid ∈ visited then
        discoverAux g maxNodes rest visited order edges
      else
        if (order ++ [cid]).length > maxNodes then
          .error "max_nodes exceeded"
        else
          match g.lookup cid with
          | none =>
              discoverAux g maxNodes rest (insert cid visited)
                (order ++ [cid]) edges
          | some o =>
              discoverAux g maxNodes (rest ++ childTargets o)
                (insert cid visited) (order ++ [cid])
                (edges ++ expandEdges cid o) := by
  rw [discoverAux_eq]

theorem localAux_nil (g : Graph) (seen : Finset Nat) (body : List Nat)
    (leaves : List Nat) :
    localAux g [] seen body leaves = (body, leaves) := by
  rw [localAux_eq]

theorem localAux_cons (g : Graph) (nid : Nat) (rest : List Nat)
    (seen : Finset Nat) (body : List Nat) (leaves : List Nat) :
    localAux g (nid :: rest) seen body leaves =
      if nid ∈ seen then
        localAux g rest seen body leaves
      else
        match g.lookup nid with
        | none =>
            localAux g rest (insert nid seen) (body ++ [nid]) (leaves ++ [nid])
        | some o =>
          if o.succ.isEmpty then
            localAux g rest (insert nid seen) (body ++ [nid]) (leaves ++ [nid])
          else
            localAux g (rest ++ (sortKeys o.succ).filterMap (succGet o.succ))
              (insert nid seen) (body ++ [nid]) leaves := by
  rw [localAux_eq]

theorem realStartAux_none (g : Graph) (seen : Finset Nat) :
    realStartAux g seen none = none := by
  rw [realStartAux_eq]

theorem realStartAux_some (g : Graph) (seen : Finset Nat) (xid : Nat) :
    realStartAux g seen (some xid) =
      match g.lookup xid with
      | none => some xid
      | some o =>
        if o.isFlow = true ∧ o.startNode.isSome then
          if xid ∈ seen then none
          else realStartAux g (insert xid seen) o.startNode
        else some xid := by
  rw [realStartAux_eq]

theorem ancWalkGo_mem (g : Graph) (order : List Nat) (seen : Finset Nat)
    (c : Nat) (h : c ∈ seen) : ancWalkGo g order seen c = [none] := by
  rw [ancWalkGo_eq, if_pos h]

theorem ancWalkGo_not_mem (g : Graph) (order : List Nat) (seen : Finset Nat)
    (c : Nat) (h : c ∉ seen) :
    ancWalkGo g order seen c =
      some c ::
        (match parentOf g order c with
         | none => [none]
         | some p => ancWalkGo g order (insert c seen) p) := by
  rw [ancWalkGo_eq, if_neg h]

theorem exitSourceOids_not_expanded (g : Graph) (computing : Finset Nat)
    (oid : Nat) (h : ¬ isExpandedFlow g oid = true) :
    exitSourceOids g computing oid = [oid] := by
  rw [exitSourceOids, dif_neg h]

theorem exitSourceOids_in_computing (g : Graph) (computing : Finset Nat)
    (oid : Nat) (h1 : isExpandedFlow g oid = true) (h2 : oid ∈ computing) :
    exitSourceOids g computing oid =
      match realStart g oid with
      | some rs => [rs]
      | none => [oid] := by
  rw [exitSourceOids, dif_pos h1, dif_pos h2]

theorem exitSourceOids_main (g : Graph) (computing : Finset Nat) (oid : Nat)
    (h1 : isExpandedFlow g oid = true) (h2 : oid ∉ computing) :
    exitSourceOids g computing oid =
      let resolved := exitUnion g (insert oid computing) (leavesListOf g oid)
      let withFallback :=
        if resolved.isEmpty then
          match realStart g oid with
          | some rs => [rs]
          | none => []
        else resolved
      if withFallback.isEmpty then [oid] else withFallback := by
  rw [exitSourceOids, dif_pos h1, dif_neg h2]

theorem exitUnion_nil (g : Graph) (computing : Finset Nat) :
    exitUnion g computing [] = [] := by
  rw [exitUnion]

theorem exitUnion_cons (g : Graph) (computing : Finset Nat) (lid : Nat)
    (rest : List Nat) :
    exitUnion g computing (lid :: rest) =
      (match g.lookup lid with
       | none => ([] : List Nat)
       | some _ =>
          if isExpandedFlow g lid then exitSourceOids g computing lid
          else [lid]) ++
        exitUnion g computing rest := by
  rw [exitUnion]

theorem renderFlow_mem (g : Graph) (order : List Nat) (ns : List (String × Nat))
    (redges : List (Nat × String × Nat)) (showDefault : Bool)
    (stack : Finset Nat) (fid : Nat) (indent : String) (st : RenderSt)
    (h : fid ∈ stack) :
    renderFlow g order ns redges showDefault stack fid indent st = st := by
  rw [renderFlow_eq, if_pos h]

theorem renderFlow_eval (g : Graph) (order : List Nat)
    (ns : List (String × Nat)) (redges : List (Nat × String × Nat))
    (showDefault : Bool) (stack : Finset Nat) (fid : Nat) (indent : String)
    (st : RenderSt) (h : fid ∉ stack) :
    renderFlow g order ns redges showDefault stack fid indent st =
      match g.lookup fid with
      | none => st
      | some _ =>
        subgraphExitSt g order redges showDefault fid indent
          (renderFlowList g order ns redges showDefault (insert fid stack)
            (childFlowIdsOf g order fid) (indent ++ "  ")
            (subgraphEnterSt g order ns fid indent st)) := by
  rw [renderFlow_eq, if_neg h]

theorem renderFlowList_nil (g : Graph) (order : List Nat)
    (ns : List (String × Nat)) (redges : List (Nat × String × Nat))
    (showDefault : Bool) (stack : Finset Nat) (indent : String)
    (st : RenderSt) :
    renderFlowList g order ns redges showDefault stack [] indent st = st := by
  rw [renderFlowList]

theorem renderFlowList_cons (g : Graph) (order : List Nat)
    (ns : List (String × Nat)) (redges : List (Nat × String × Nat))
    (showDefault : Bool) (stack : Finset Nat) (fid : Nat) (rest : List Nat)
    (indent : String) (st : RenderSt) :
    renderFlowList g order ns redges showDefault stack (fid :: rest) indent st =
      renderFlowList g order ns redges showDefault stack rest indent
        (renderFlow g order ns redges showDefault stack fid indent st) := by
  rw [renderFlowList]

theorem renderFlowList_eq (g : Graph) (order : List Nat)
    (ns : List (String × Nat)) (redges : List (Nat × String × Nat))
    (showDefault : Bool) (stack : Finset Nat) (l : List Nat) (indent : String)
    (st : RenderSt) :
    renderFlowList g order ns redges showDefault stack l indent st =
      match l with
      | [] => st
      | fid :: rest =>
        renderFlowList g order ns redges showDefault stack rest indent
          (renderFlow g order ns redges showDefault stack fid indent st) := by
  cases l with
  | nil => rw [renderFlowList]
  | cons fid rest => rw [renderFlowList]

/-! Properties of the containment fold. -/

theorem assocGet_setdefault (m : List (Nat × Nat)) (k v k' : Nat) :
    assocGet (setdefault m k v) k' =
      if k' = k ∧ assocGet m k = none then some v else assocGet m k' := by
  unfold setdefault assocGet
  by_cases hs : (m.find? (fun p => p.1 = k)).isSome
  · rw [if_pos hs]
    rw [Option.isSome_iff_exists] at hs
    obtain ⟨p, hp⟩ := hs
    simp [hp]
  · rw [if_neg hs]
    rw [Option.not_isSome_iff_eq_none] at hs
    by_cases hk : k' = k
    · subst hk
      rw [List.find?_append, hs]
      simp [List.find?]
    · rw [List.find?_append]
      have hd : (decide (k = k')) = false :=
        decide_eq_false (fun h => hk h.symm)
      have : ([(k, v)].find? (fun p => p.1 = k')) = none := by
        simp [List.find?, hd]
      rw [this]
      simp [hk]

theorem assocGet_fold_setdefault (ks : List Nat) (fid : Nat)
    (m : List (Nat × Nat)) (nid : Nat) :
    assocGet (ks.foldl (fun m' k => setdefault m' k fid) m) nid =
      if nid ∈ ks ∧ assocGet m nid = none then some fid
      else assocGet m nid := by
  induction ks generalizing m with
  | nil => simp
  | cons k ks ih =>
    rw [List.foldl_cons, ih, assocGet_setdefault]
    by_cases hk : nid = k
    · subst hk
      by_cases hm : assocGet m nid = none
      · simp [hm]
      · simp [hm]
    · simp only [hk, false_and, if_false]
      by_cases hmem : nid ∈ ks <;> by_cases hm : assocGet m nid = none <;>
        simp [hmem, hm, hk]

theorem assocGet_fold_flows (g : Graph) (fl : List Nat)
    (m : List (Nat × Nat)) (nid : Nat) :
    assocGet
      (fl.foldl
        (fun m' fid =>
          (bodyListOf g fid).foldl (fun m'' k => setdefault m'' k fid) m') m)
      nid =
      (assocGet m nid).or
        (fl.find? (fun fid => decide (nid ∈ bodyListOf g fid))) := by
  induction fl generalizing m with
  | nil =>
    rw [List.foldl_nil, List.find?_nil]
    cases assocGet m nid <;> rfl
  | cons fid fl ih =>
    rw [List.foldl_cons, ih, assocGet_fold_setdefault]
    by_cases hmem : nid ∈ bodyListOf g fid
    · cases hm : assocGet m nid with
      | none =>
          rw [List.find?_cons_of_pos _ (by simpa using hmem)]
          simp [hmem, hm]
      | some v => simp [hm]
    · rw [List.find?_cons_of_neg _ (by simpa using hmem)]
      simp [hmem]

/-- The containment table assigns each identity to the first flow, in global
visitation order, whose body contains it. -/
theorem containerOf_eq_find (g : Graph) (order : List Nat) (nid : Nat) :
    containerOf g order nid =
      (flowIds g order).find? (fun fid => decide (nid ∈ bodyListOf g fid)) := by
  unfold containerOf containerMap
  rw [assocGet_fold_flows]
  rfl

/-- A flow is never its own parent. -/
theorem parentOf_ne_self (g : Graph) (order : List Nat) (fid p : Nat)
    (h : parentOf g order fid = some p) : p ≠ fid := by
  unfold parentOf at h
  split at h
  · split at h
    · split at h
      · rename_i hcond
        cases h
        exact hcond.1
      · exact absurd h (by simp)
    · exact absurd h (by simp)
  · exact absurd h (by simp)

/-! Properties of real-start resolution. -/

theorem realStartAux_lookup_none (g : Graph) (seen : Finset Nat) (xid : Nat)
    (hl : g.lookup xid = none) :
    realStartAux g seen (some xid) = some xid := by
  rw [realStartAux_some, hl]

theorem realStartAux_lookup_some (g : Graph) (seen : Finset Nat) (xid : Nat)
    (o : Obj) (hl : g.lookup xid = some o) :
    realStartAux g seen (some xid) =
      if o.isFlow = true ∧ o.startNode.isSome then
        if xid ∈ seen then none
        else realStartAux g (insert xid seen) o.startNode
      else some xid := by
  rw [realStartAux_some, hl]

/-- The chain of `_real_start` stops exactly at the first object that is
not a `Flow` with a `start_node`: whatever it returns fails the loop's
continuation condition. -/
theorem realStartAux_stop (g : Graph) :
    ∀ (seen : Finset Nat) (x : Option Nat) (y : Nat),
      realStartAux g seen x = some y → isFlowWithStart g y = false := by
  intro seen x
  induction seen, x using realStartAux.induct g with
  | case1 seen =>
    intro y h
    rw [realStartAux_none] at h
    exact absurd h (by simp)
  | case2 seen xid hl =>
    intro y h
    rw [realStartAux_lookup_none g seen xid hl] at h
    cases h
    unfold isFlowWithStart
    rw [hl]
  | case3 seen xid o hl hcond hmem =>
    intro y h
    rw [realStartAux_lookup_some g seen xid o hl, if_pos hcond, if_pos hmem] at h
    exact absurd h (by simp)
  | case4 seen xid o hl hcond hmem ih =>
    intro y h
    rw [realStartAux_lookup_some g seen xid o hl, if_pos hcond, if_neg hmem] at h
    exact ih y h
  | case5 seen xid o hl hcond =>
    intro y h
    rw [realStartAux_lookup_some g seen xid o hl, if_neg hcond] at h
    cases h
    unfold isFlowWithStart
    rw [hl]
    rw [not_and_or] at hcond
    rcases hcond with hc | hc
    · simp at hc
      simp [hc]
    · simp at hc
      simp [hc]

theorem realStart_stop (g : Graph) (fid y : Nat)
    (h : realStart g fid = some y) : isFlowWithStart g y = false :=
  realStartAux_stop g ∅ _ y h

/-! Properties of entry resolution and edge rewriting. -/

theorem entryOid_not_expanded (g : Graph) (oid : Nat)
    (h : isExpandedFlow g oid = false) : entryOid g oid = oid := by
  unfold entryOid
  simp [h]

theorem entryOid_expanded (g : Graph) (oid rs : Nat)
    (h1 : isExpandedFlow g oid = true) (h2 : realStart g oid = some rs) :
    entryOid g oid = rs := by
  unfold entryOid
  simp [h1, h2]

/-- Membership characterization of the rewritten edge set: exactly the
triples obtained from a discovered edge with discovered endpoints by
fanning out over the source's exit sources and resolving the target's
entry. -/
theorem renderEdgesOf_mem (g : Graph) (order : List Nat)
    (edges : List (Nat × String × Nat)) (e : Nat × String × Nat) :
    e ∈ renderEdgesOf g order edges ↔
      ∃ s a t, (s, a, t) ∈ edges ∧ s ∈ order ∧ t ∈ order ∧
        e.1 ∈ exitSourceOids g ∅ s ∧ e.2.1 = a ∧ e.2.2 = entryOid g t := by
  unfold renderEdgesOf
  rw [List.mem_dedup, List.mem_flatMap]
  constructor
  · rintro ⟨d, hd, he⟩
    by_cases hg : d.1 ∈ order ∧ d.2.2 ∈ order
    · rw [if_pos hg, List.mem_map] at he
      obtain ⟨s, hs, hes⟩ := he
      subst hes
      exact ⟨d.1, d.2.1, d.2.2, hd, hg.1, hg.2, hs, rfl, rfl⟩
    · rw [if_neg hg] at he
      exact absurd he (List.not_mem_nil e)
  · rintro ⟨s, a, t, hmem, hso, hto, hex, ha, ht⟩
    refine ⟨(s, a, t), hmem, ?_⟩
    rw [if_pos ⟨hso, hto⟩, List.mem_map]
    refine ⟨e.1, hex, ?_⟩
    obtain ⟨e1, e2, e3⟩ := e
    simp only at ha ht
    rw [ha, ht]

/-- Rewritten edges are stored with set semantics: no duplicate triples. -/
theorem renderEdgesOf_nodup (g : Graph) (order : List Nat)
    (edges : List (Nat × String × Nat)) :
    (renderEdgesOf g order edges).Nodup :=
  List.nodup_dedup _

/-! The renderer only appends to its output. -/

theorem stExtends_refl (st : RenderSt) : StExtends st st :=
  ⟨⟨[], by simp⟩, ⟨[], by simp⟩, ⟨[], by simp⟩⟩

theorem stExtends_trans {s1 s2 s3 : RenderSt} (h1 : StExtends s1 s2)
    (h2 : StExtends s2 s3) : StExtends s1 s3 := by
  obtain ⟨⟨a1, ha1⟩, ⟨b1, hb1⟩, ⟨c1, hc1⟩⟩ := h1
  obtain ⟨⟨a2, ha2⟩, ⟨b2, hb2⟩, ⟨c2, hc2⟩⟩ := h2
  exact ⟨⟨a1 ++ a2, by rw [ha2, ha1, List.append_assoc]⟩,
    ⟨b1 ++ b2, by rw [hb2, hb1, List.append_assoc]⟩,
    ⟨c1 ++ c2, by rw [hc2, hc1, List.append_assoc]⟩⟩

theorem subgraphEnterSt_stExtends (g : Graph) (order : List Nat)
    (ns : List (String × Nat)) (fid : Nat) (indent : String) (st : RenderSt) :
    StExtends st (subgraphEnterSt g order ns fid indent st) := by
  unfold subgraphEnterSt
  exact ⟨⟨[indent ++ "subgraph " ++ ("subflow_" ++ mermaidId order fid) ++ "[" ++
        escapeStr false (labelFor g ns st.lst fid).1 ++ "]"] ++
      (declFold g order ns (indent ++ "  ") (labelFor g ns st.lst fid).2
        (plainIdsOf g order fid)).1,
      by rw [List.append_assoc]⟩,
    ⟨[fid], rfl⟩, ⟨plainIdsOf g order fid, rfl⟩⟩

theorem subgraphExitSt_stExtends (g : Graph) (order : List Nat)
    (redges : List (Nat × String × Nat)) (sd : Bool) (fid : Nat)
    (indent : String) (st : RenderSt) :
    StExtends st (subgraphExitSt g order redges sd fid indent st) := by
  unfold subgraphExitSt
  exact ⟨⟨((bucketEdges g order redges (some fid)).map
        (fun e => indent ++ "  " ++ edgeLine order sd e)) ++ [indent ++ "end"],
      by rw [List.append_assoc]⟩,
    ⟨[], by simp⟩, ⟨[], by simp⟩⟩

theorem renderFlow_stExtends (g : Graph) (order : List Nat)
    (ns : List (String × Nat)) (redges : List (Nat × String × Nat))
    (sd : Bool) (stack : Finset Nat) (fid : Nat) (indent : String)
    (st : RenderSt) :
    StExtends st (renderFlow g order ns redges sd stack fid indent st) := by
  refine renderFlow.induct g order ns redges sd
    (fun stack fid indent _ =>
      ∀ st, StExtends st (renderFlow g order ns redges sd stack fid indent st))
    (fun stack l indent _ =>
      ∀ st, StExtends st (renderFlowList g order ns redges sd stack l indent st))
    ?_ ?_ ?_ ?_ ?_ stack fid indent st st
  · intro stack fid indent _ h st
    rw [renderFlow_mem g order ns redges sd stack fid indent st h]
    exact stExtends_refl st
  · intro stack fid indent _ h hnone st
    rw [renderFlow_eval g order ns redges sd stack fid indent st h]
    simp only [hnone]
    exact stExtends_refl st
  · intro stack fid indent _ h o hl ih st
    rw [renderFlow_eval g order ns redges sd stack fid indent st h]
    simp only [hl]
    exact stExtends_trans (subgraphEnterSt_stExtends g order ns fid indent st)
      (stExtends_trans (ih _) (subgraphExitSt_stExtends g order redges sd fid indent _))
  · intro stack indent _ st
    rw [renderFlowList_nil]
    exact stExtends_refl st
  · intro stack indent _ cid rest ih1 ih2 st
    rw [renderFlowList_cons]
    exact stExtends_trans (ih1 st) (ih2 _)

theorem renderFlowList_stExtends (g : Graph) (order : List Nat)
    (ns : List (String × Nat)) (redges : List (Nat × String × Nat))
    (sd : Bool) (stack : Finset Nat) (l : List Nat) (indent : String)
    (st : RenderSt) :
    StExtends st (renderFlowList g order ns redges sd stack l indent st) := by
  induction l generalizing st with
  | nil =>
    rw [renderFlowList_nil]
    exact stExtends_refl st
  | cons fid rest ih =>
    rw [renderFlowList_cons]
    exact stExtends_trans
      (renderFlow_stExtends g order ns redges sd stack fid indent st) (ih _)

theorem stExtends_ite (c : Prop) [Decidable c] (f : RenderSt → RenderSt)
    (st : RenderSt) (h : ∀ s, StExtends s (f s)) :
    StExtends st (if c then f st else st) := by
  split
  · exact h st
  · exact stExtends_refl st

theorem stExtends_foldl {α : Type} (step : RenderSt → α → RenderSt)
    (h : ∀ st x, StExtends st (step st x)) (l : List α) :
    ∀ st, StExtends st (l.foldl step st) := by
  induction l with
  | nil =>
    intro st
    rw [List.foldl_nil]
    exact stExtends_refl st
  | cons x rest ih =>
    intro st
    rw [List.foldl_cons]
    exact stExtends_trans (h st x) (ih _)

theorem topFlowStep_stExtends (g : Graph) (order : List Nat)
    (ns : List (String × Nat)) (redges : List (Nat × String × Nat))
    (sd : Bool) (root : Nat) (st : RenderSt) (fid : Nat) :
    StExtends st (topFlowStep g order ns redges sd root st fid) := by
  unfold topFlowStep
  by_cases hc : fid ≠ root ∧ fid ∈ expandedFlowIds g order ∧
      containerOf g order fid = none ∧ fid ∉ st.renderedFlows
  · rw [if_pos hc]
    exact renderFlow_stExtends g order ns redges sd ∅ fid "  " st
  · rw [if_neg hc]
    exact stExtends_refl st

theorem topDeclStep_stExtends (g : Graph) (order : List Nat)
    (ns : List (String × Nat)) (st : RenderSt) (oid : Nat) :
    StExtends st (topDeclStep g order ns st oid) := by
  unfold topDeclStep
  by_cases hc : ¬ isExpandedFlow g oid = true ∧ containerOf g order oid = none
  · rw [if_pos hc]
    exact ⟨⟨_, rfl⟩, ⟨[], by simp⟩, ⟨[oid], rfl⟩⟩
  · rw [if_neg hc]
    exact stExtends_refl st

/-- In every successful run, the emitted lines start with the code fence
and the direction header. -/
theorem visualizeCore_ok_lines (g : Graph) (root : Nat)
    (ns : List (String × Nat)) (dir : Option String) (sd hs : Bool)
    (m : Int) (c : CoreOut)
    (h : visualizeCore g root ns dir sd hs m = .ok c) :
    ∃ d, c.lines = ["```mermaid", "flowchart " ++ directionU dir] ++ d := by
  unfold visualizeCore at h
  by_cases h1 : directionU dir ∉ validDirections
  · rw [if_pos h1] at h
    exact absurd h (by simp)
  · rw [if_neg h1] at h
    by_cases h2 : m ≤ 0
    · rw [if_pos h2] at h
      exact absurd h (by simp)
    · rw [if_neg h2] at h
      cases hd : discover g root m.toNat with
      | error e =>
        rw [hd] at h
        exact absurd h (by simp)
      | ok oe =>
        rw [hd] at h
        obtain ⟨order, edges⟩ := oe
        simp only [Except.ok.injEq] at h
        subst h
        simp only
        obtain ⟨⟨d1, hd1⟩, -, -⟩ :=
          stExtends_trans
            (stExtends_ite (root ∈ expandedFlowIds g order)
              (renderFlow g order ns (renderEdgesOf g order edges) sd ∅ root "  ")
              _
              (renderFlow_stExtends g order ns (renderEdgesOf g order edges)
                sd ∅ root "  "))
            (stExtends_trans
              (stExtends_foldl _
                (topFlowStep_stExtends g order ns
                  (renderEdgesOf g order edges) sd root) (flowIds g order) _)
              (stExtends_foldl _ (topDeclStep_stExtends g order ns) order _))
        rw [hd1]
        exact ⟨_, rfl⟩

/-- The only error discovery raises is the budget overflow. -/
theorem discoverAux_error_msg (g : Graph) (maxNodes : Nat) :
    ∀ (queue : List Nat) (visited : Finset Nat) (order : List Nat)
      (edges : List (Nat × String × Nat)) (e : String),
      discoverAux g maxNodes queue visited order edges = .error e →
        e = "max_nodes exceeded" := by
  intro queue visited order edges
  induction queue, visited, order, edges using discoverAux.induct g maxNodes with
  | case1 visited order edges =>
    intro e h
    rw [discoverAux_nil] at h
    exact absurd h (by simp)
  | case2 visited order edges cid rest hv ih =>
    intro e h
    rw [discoverAux_cons, if_pos hv] at h
    exact ih e h
  | case3 visited order edges cid rest hv hb =>
    intro e h
    rw [discoverAux_cons, if_neg hv, if_pos hb] at h
    cases h
    rfl
  | case4 visited order edges cid rest hv hb hl ih =>
    intro e h
    rw [discoverAux_cons, if_neg hv, if_neg hb, hl] at h
    exact ih e h
  | case5 visited order edges cid rest hv hb o hl ih =>
    intro e h
    rw [discoverAux_cons, if_neg hv, if_neg hb, hl] at h
    exact ih e h

/-- An invalid direction is rejected before any traversal, whatever the
graph. -/
theorem visualizeCore_dir_invalid (g : Graph) (root : Nat)
    (ns : List (String × Nat)) (dir : Option String) (sd hs : Bool) (m : Int)
    (h : directionU dir ∉ validDirections) :
    visualizeCore g root ns dir sd hs m =
      .error "direction must be one of LR/RL/TB/TD/BT" := by
  unfold visualizeCore
  rw [if_pos h]

/-- With a valid direction the call never fails with the direction error
(its other failures carry different messages). -/
theorem visualizeCore_valid_dir_not_dir_error (g : Graph) (root : Nat)
    (ns : List (String × Nat)) (dir : Option String) (sd hs : Bool) (m : Int)
    (h : directionU dir ∈ validDirections) :
    visualizeCore g root ns dir sd hs m ≠
      .error "direction must be one of LR/RL/TB/TD/BT" := by
  unfold visualizeCore
  rw [if_neg (by simp [h])]
  by_cases h2 : m ≤ 0
  · rw [if_pos h2]
    intro hcon
    injection hcon with hmsg
    exact absurd hmsg (by decide)
  · rw [if_neg h2]
    cases hd : discover g root m.toNat with
    | error e =>
      have he := discoverAux_error_msg g m.toNat [root] ∅ [] [] e hd
      subst he
      intro hcon
      injection hcon with hmsg
      exact absurd hmsg (by decide)
    | ok oe =>
      obtain ⟨order, edges⟩ := oe
      intro hcon
      cases hcon

theorem directionU_some_of_ne (d : String) (h : d ≠ "") :
    directionU (some d) = strUpper d := by
  unfold directionU
  show strUpper (if d = "" then "LR" else d) = strUpper d
  rw [if_neg h]

theorem directionU_mem_of_toUpper_mem (d : String)
    (h : strUpper d ∈ validDirections) :
    directionU (some d) ∈ validDirections := by
  by_cases he : d = ""
  · subst he
    decide
  · rw [directionU_some_of_ne d he]
    exact h

/-- The direction parameter influences the call only through
`(direction or "LR").upper()`. -/
theorem visualize_direction_congr (g : Graph) (root : Nat)
    (ns : List (String × Nat)) (d1 d2 : Option String) (sd hs : Bool)
    (m : Int) (h : directionU d1 = directionU d2) :
    visualize g root ns d1 sd hs m = visualize g root ns d2 sd hs m := by
  unfold visualize visualizeCore
  rw [h]

theorem lines_header_snd {c : CoreOut} {dir : Option String}
    (h : ∃ d, c.lines = ["```mermaid", "flowchart " ++ directionU dir] ++ d) :
    c.lines[1]? = some ("flowchart " ++ directionU dir) := by
  obtain ⟨d, hd⟩ := h
  rw [hd]
  simp

/-! # The claims -/

set_option maxHeartbeats 2000000 in
/-- C7: for every direction value in {LR, RL, TB, TD, BT} up to case, the
call is never rejected by direction validation and a successful run's
header line carries the uppercased value (shown concretely for all five
lowercased values); every non-empty direction value whose uppercasing is
outside the set is rejected with the fatal direction error before any
traversal, whatever the graph. -/
theorem claim_C7 :
    (∀ (d : String) (g : Graph) (root : Nat) (ns : List (String × Nat))
        (sd hs : Bool) (m : Int), d ≠ "" → strUpper d ∉ validDirections →
        visualizeCore g root ns (some d) sd hs m =
          .error "direction must be one of LR/RL/TB/TD/BT") ∧
    (∀ (d : String) (g : Graph) (root : Nat) (ns : List (String × Nat))
        (sd hs : Bool) (m : Int), strUpper d ∈ validDirections →
        visualizeCore g root ns (some d) sd hs m ≠
          .error "direction must be one of LR/RL/TB/TD/BT") ∧
    (∀ (d : String) (g : Graph) (root : Nat) (ns : List (String × Nat))
        (sd hs : Bool) (m : Int) (c : CoreOut), d ≠ "" →
        visualizeCore g root ns (some d) sd hs m = .ok c →
        c.lines[1]? = some ("flowchart " ++ strUpper d)) ∧
    ((visualizeCore gSimple 1 [] (some "lr") false false 10).map
        (fun c => c.lines[1]?) = .ok (some "flowchart LR")) ∧
    ((visualizeCore gSimple 1 [] (some "rl") false false 10).map
        (fun c => c.lines[1]?) = .ok (some "flowchart RL")) ∧
    ((visualizeCore gSimple 1 [] (some "tb") false false 10).map
        (fun c => c.lines[1]?) = .ok (some "flowchart TB")) ∧
    ((visualizeCore gSimple 1 [] (some "td") false false 10).map
        (fun c => c.lines[1]?) = .ok (some "flowchart TD")) ∧
    ((visualizeCore gSimple 1 [] (some "bt") false false 10).map
        (fun c => c.lines[1]?) = .ok (some "flowchart BT")) := by
  refine ⟨?_, ?_, ?_, ?_, ?_, ?_, ?_, ?_⟩
  · intro d g root ns sd hs m hne hmem
    apply visualizeCore_dir_invalid
    rw [directionU_some_of_ne d hne]
    exact hmem
  · intro d g root ns sd hs m hmem
    exact visualizeCore_valid_dir_not_dir_error g root ns (some d) sd hs m
      (directionU_mem_of_toUpper_mem d hmem)
  · intro d g root ns sd hs m c hne hok
    have := lines_header_snd (visualizeCore_ok_lines g root ns (some d)
      sd hs m c hok)
    rw [directionU_some_of_ne d hne] at this
    exact this
  all_goals
    simp [visualizeCore, directionU, strUpper, validDirections, discover,
      discoverAux_nil, discoverAux_cons, Graph.lookup, gSimple, childTargets,
      expandEdges, sortKeys, succGet, renderEdgesOf,
      exitSourceOids_not_expanded, exitSourceOids_in_computing,
      exitSourceOids_main, exitUnion_nil, exitUnion_cons, isExpandedFlow,
      realStart, realStartAux_none, realStartAux_some, entryOid, flowIds,
      isFlowId, containerOf, containerMap, bodyListOf, leavesListOf,
      localAux_nil, localAux_cons, setdefault, assocGet, expandedFlowIds,
      renderFlow_mem, renderFlow_eval, renderFlowList_nil, renderFlowList_cons,
      subgraphEnterSt, subgraphExitSt, childFlowIdsOf, plainIdsOf, declFold,
      bucketEdges, edgeContainer, ancWalk, ancWalkGo_mem, ancWalkGo_not_mem,
      parentOf, orderIndex, edgeKeyLe, mermaidId, nodeDef, labelFor,
      namesByObjId, classNameOf, setCounter, escapeStr, edgeLine,
      startTargetOf, topFlowStep, topDeclStep, highlightStep, highlightsOf] <;>
    rfl

/-- C7 witness: the direction-validation facts applied at concrete inputs:
"xy" is rejected on every graph, and "tb" is never rejected by direction
validation. -/
theorem claim_C7_witness :
    visualizeCore gSimple 1 [] (some "xy") false false 10 =
      .error "direction must be one of LR/RL/TB/TD/BT" ∧
    visualizeCore gSimple 1 [] (some "tb") false false 10 ≠
      .error "direction must be one of LR/RL/TB/TD/BT" :=
  ⟨claim_C7.1 "xy" gSimple 1 [] false false 10 (by decide) (by decide),
   claim_C7.2.1 "tb" gSimple 1 [] false false 10 (by decide)⟩

/-- C8: the renderer is deterministic — two invocations on the same graph,
entry object, name table and configuration return identical output
(including warnings). -/
theorem claim_C8 :
    ∀ (g g' : Graph) (root root' : Nat) (ns ns' : List (String × Nat))
      (dir dir' : Option String) (sd sd' hs hs' : Bool) (m m' : Int),
      g = g' → root = root' → ns = ns' → dir = dir' → sd = sd' → hs = hs' →
      m = m' →
      visualize g root ns dir sd hs m = visualize g' root' ns' dir' sd' hs' m' := by
  intro g g' root root' ns ns' dir dir' sd sd' hs hs' m m' h1 h2 h3 h4 h5 h6 h7
  subst h1; subst h2; subst h3; subst h4; subst h5; subst h6; subst h7
  rfl

/-- C8 witness: two calls on the same concrete inputs give equal output. -/
theorem claim_C8_witness :
    visualize gSimple 1 [] none false true 10 =
      visualize gSimple 1 [] none false true 10 :=
  claim_C8 gSimple gSimple 1 1 [] [] none none false false true true 10 10
    rfl rfl rfl rfl rfl rfl rfl

set_option maxHeartbeats 2000000 in
/-- C10: a falsy direction (Python `None` or the empty string) is silently
treated as "LR": validation does not reject it, the call behaves exactly
as with "LR", every successful run's header line reads "flowchart LR", and
on a concrete graph the call succeeds. -/
theorem claim_C10 :
    directionU none = "LR" ∧ directionU (some "") = "LR" ∧
    (∀ (g : Graph) (root : Nat) (ns : List (String × Nat)) (sd hs : Bool)
        (m : Int),
        visualize g root ns none sd hs m =
          visualize g root ns (some "LR") sd hs m) ∧
    (∀ (g : Graph) (root : Nat) (ns : List (String × Nat)) (sd hs : Bool)
        (m : Int),
        visualize g root ns (some "") sd hs m =
          visualize g root ns (some "LR") sd hs m) ∧
    (∀ (g : Graph) (root : Nat) (ns : List (String × Nat)) (sd hs : Bool)
        (m : Int) (c : CoreOut),
        visualizeCore g root ns none sd hs m = .ok c →
        c.lines[1]? = some "flowchart LR") ∧
    ((visualizeCore gSimple 1 [] none false false 10).map
        (fun c => c.lines[1]?) = .ok (some "flowchart LR")) := by
  refine ⟨by decide, by decide, ?_, ?_, ?_, ?_⟩
  · intro g root ns sd hs m
    exact visualize_direction_congr g root ns none (some "LR") sd hs m
      (by decide)
  · intro g root ns sd hs m
    exact visualize_direction_congr g root ns (some "") (some "LR") sd hs m
      (by decide)
  · intro g root ns sd hs m c hok
    have := lines_header_snd (visualizeCore_ok_lines g root ns none
      sd hs m c hok)
    simpa using this
  · simp [visualizeCore, directionU, strUpper, validDirections, discover,
      discoverAux_nil, discoverAux_cons, Graph.lookup, gSimple, childTargets,
      expandEdges, sortKeys, succGet, renderEdgesOf,
      exitSourceOids_not_expanded, exitSourceOids_in_computing,
      exitSourceOids_main, exitUnion_nil, exitUnion_cons, isExpandedFlow,
      realStart, realStartAux_none, realStartAux_some, entryOid, flowIds,
      isFlowId, containerOf, containerMap, bodyListOf, leavesListOf,
      localAux_nil, localAux_cons, setdefault, assocGet, expandedFlowIds,
      renderFlow_mem, renderFlow_eval, renderFlowList_nil, renderFlowList_cons,
      subgraphEnterSt, subgraphExitSt, childFlowIdsOf, plainIdsOf, declFold,
      bucketEdges, edgeContainer, ancWalk, ancWalkGo_mem, ancWalkGo_not_mem,
      parentOf, orderIndex, edgeKeyLe, mermaidId, nodeDef, labelFor,
      namesByObjId, classNameOf, setCounter, escapeStr, edgeLine,
      startTargetOf, topFlowStep, topDeclStep, highlightStep, highlightsOf] <;>
    rfl

/-- C10 witness: the falsy-direction facts applied at concrete inputs. -/
theorem claim_C10_witness :
    visualize gSimple 1 [] none false true 10 =
      visualize gSimple 1 [] (some "LR") false true 10 :=
  claim_C10.2.2.1 gSimple 1 [] false true 10

/-! Closure of the heap and the exit-source characterization. -/

theorem Closed_start {g : Graph} {oid : Nat} {o : Obj} {s : Nat}
    (hc : g.Closed = true) (hl : g.lookup oid = some o)
    (hs : o.startNode = some s) : s ∈ g.domain := by
  unfold Graph.Closed at hc
  rw [List.all_eq_true] at hc
  unfold Graph.lookup at hl
  cases hf : g.objs.find? (fun p => p.1 = oid) with
  | none => rw [hf] at hl; exact absurd hl (by simp)
  | some p =>
    rw [hf] at hl
    simp at hl
    have hp := hc p (List.mem_of_find?_eq_some hf)
    rw [Bool.and_eq_true] at hp
    have h1 := hp.1
    rw [hl, hs] at h1
    simpa using h1

theorem Closed_succ {g : Graph} {oid : Nat} {o : Obj} {a : String} {t : Nat}
    (hc : g.Closed = true) (hl : g.lookup oid = some o)
    (hm : (a, some t) ∈ o.succ) : t ∈ g.domain := by
  unfold Graph.Closed at hc
  rw [List.all_eq_true] at hc
  unfold Graph.lookup at hl
  cases hf : g.objs.find? (fun p => p.1 = oid) with
  | none => rw [hf] at hl; exact absurd hl (by simp)
  | some p =>
    rw [hf] at hl
    simp at hl
    have hp := hc p (List.mem_of_find?_eq_some hf)
    rw [Bool.and_eq_true] at hp
    have h2 := hp.2
    rw [hl] at h2
    rw [List.all_eq_true] at h2
    have := h2 (a, some t) hm
    simpa using this

theorem succGet_mem {succ : List (String × Option Nat)} {act : String}
    {t : Nat} (h : succGet succ act = some t) : (act, some t) ∈ succ := by
  unfold succGet at h
  cases hf : succ.find? (fun p => p.1 = act) with
  | none => rw [hf] at h; exact absurd h (by simp)
  | some p =>
    rw [hf] at h
    have hpred := List.find?_some hf
    simp only [decide_eq_true_eq] at hpred
    have hmem := List.mem_of_find?_eq_some hf
    have : p = (act, some t) := by
      obtain ⟨p1, p2⟩ := p
      simp only at hpred h
      rw [hpred, h]
    rw [← this]
    exact hmem

theorem localAux_mem_domain (g : Graph) (hc : g.Closed = true) :
    ∀ (queue : List Nat) (seen : Finset Nat) (body leaves : List Nat),
      (∀ x ∈ queue, x ∈ g.domain) → (∀ x ∈ body, x ∈ g.domain) →
      (∀ x ∈ leaves, x ∈ g.domain) →
      (∀ x ∈ (localAux g queue seen body leaves).1, x ∈ g.domain) ∧
      (∀ x ∈ (localAux g queue seen body leaves).2, x ∈ g.domain) := by
  intro queue seen body leaves
  induction queue, seen, body, leaves using localAux.induct g with
  | case1 seen body leaves =>
    intro _ hb hl
    rw [localAux_nil]
    exact ⟨hb, hl⟩
  | case2 seen body leaves nid rest hmem ih =>
    intro hq hb hl
    rw [localAux_cons, if_pos hmem]
    exact ih (fun x hx => hq x (List.mem_cons_of_mem _ hx)) hb hl
  | case3 seen body leaves nid rest hmem hlk ih =>
    intro hq _ _
    exact absurd (hq nid (List.mem_cons_self nid rest))
      (lookup_none_not_mem_domain hlk)
  | case4 seen body leaves nid rest hmem o hlk hemp ih =>
    intro hq hb hl
    rw [localAux_cons, if_neg hmem]
    simp only [hlk]
    rw [if_pos hemp]
    have hn : nid ∈ g.domain := hq nid (List.mem_cons_self nid rest)
    refine ih (fun x hx => hq x (List.mem_cons_of_mem _ hx)) ?_ ?_ <;>
    · intro x hx
      rw [List.mem_append] at hx
      rcases hx with hx | hx
      · first
        | exact hb x hx
        | exact hl x hx
      · rw [List.mem_singleton] at hx
        subst hx
        exact hn
  | case5 seen body leaves nid rest hmem o hlk hemp ih =>
    intro hq hb hl
    rw [localAux_cons, if_neg hmem]
    simp only [hlk]
    rw [if_neg hemp]
    have hn : nid ∈ g.domain := hq nid (List.mem_cons_self nid rest)
    refine ih ?_ ?_ hl
    · intro x hx
      rw [List.mem_append] at hx
      rcases hx with hx | hx
      · exact hq x (List.mem_cons_of_mem _ hx)
      · rw [List.mem_filterMap] at hx
        obtain ⟨act, _, hget⟩ := hx
        exact Closed_succ hc hlk (succGet_mem hget)
    · intro x hx
      rw [List.mem_append] at hx
      rcases hx with hx | hx
      · exact hb x hx
      · rw [List.mem_singleton] at hx
        subst hx
        exact hn

theorem isExpandedFlow_elim {g : Graph} {oid : Nat}
    (h : isExpandedFlow g oid = true) :
    ∃ o, g.lookup oid = some o ∧ o.isFlow = true ∧
      (∃ s, o.startNode = some s) ∧ ∃ rs, realStart g oid = some rs := by
  unfold isExpandedFlow at h
  cases hl : g.lookup oid with
  | none => rw [hl] at h; exact absurd h (by simp)
  | some o =>
    rw [hl] at h
    rw [Bool.and_eq_true, Bool.and_eq_true] at h
    exact ⟨o, rfl, h.1.1, Option.isSome_iff_exists.mp h.1.2,
      Option.isSome_iff_exists.mp h.2⟩

theorem leavesListOf_subset_domain (g : Graph) (hc : g.Closed = true)
    (oid : Nat) (hexp : isExpandedFlow g oid = true) :
    ∀ x ∈ leavesListOf g oid, x ∈ g.domain := by
  obtain ⟨o, hl, _, ⟨s, hs⟩, _⟩ := isExpandedFlow_elim hexp
  unfold leavesListOf
  rw [hl]
  rw [show (some o).bind Obj.startNode = o.startNode from rfl, hs]
  have hdom : s ∈ g.domain := Closed_start hc hl hs
  exact (localAux_mem_domain g hc [s] ∅ [] []
    (by intro x hx; rw [List.mem_singleton] at hx; subst hx; exact hdom)
    (by intro x hx; exact absurd hx (List.not_mem_nil x))
    (by intro x hx; exact absurd hx (List.not_mem_nil x))).2

theorem exitUnion_mem (g : Graph) (computing : Finset Nat) :
    ∀ (l : List Nat), (∀ lid ∈ l, (g.lookup lid).isSome) → ∀ x,
      (x ∈ exitUnion g computing l ↔
        ∃ lid ∈ l,
          (isExpandedFlow g lid = true ∧
            x ∈ exitSourceOids g computing lid) ∨
          (isExpandedFlow g lid = false ∧ x = lid)) := by
  intro l
  induction l with
  | nil =>
    intro _ x
    rw [exitUnion_nil]
    simp
  | cons lid rest ih =>
    intro hl x
    rw [exitUnion_cons]
    cases hlk : g.lookup lid with
    | none =>
      have := hl lid (List.mem_cons_self lid rest)
      rw [hlk] at this
      exact absurd this (by simp)
    | some o =>
      rw [List.mem_append]
      have ihx := ih (fun y hy => hl y (List.mem_cons_of_mem _ hy)) x
      by_cases he : isExpandedFlow g lid = true
      · simp only [hlk, he, if_true, ihx]
        constructor
        · rintro (hx | ⟨lid', hmem, hx⟩)
          · exact ⟨lid, List.mem_cons_self lid rest, Or.inl ⟨he, hx⟩⟩
          · exact ⟨lid', List.mem_cons_of_mem _ hmem, hx⟩
        · rintro ⟨lid', hmem, hx⟩
          rw [List.mem_cons] at hmem
          rcases hmem with heq | hmem
          · subst heq
            rcases hx with ⟨_, hx⟩ | ⟨hfalse, _⟩
            · exact Or.inl hx
            · rw [he] at hfalse
              exact absurd hfalse (by simp)
          · exact Or.inr ⟨lid', hmem, hx⟩
      · rw [Bool.not_eq_true] at he
        simp only [hlk, he, if_false, Bool.false_eq_true, List.mem_singleton,
          ihx]
        constructor
        · rintro (hx | ⟨lid', hmem, hx⟩)
          · exact ⟨lid, List.mem_cons_self lid rest, Or.inr ⟨he, hx⟩⟩
          · exact ⟨lid', List.mem_cons_of_mem _ hmem, hx⟩
        · rintro ⟨lid', hmem, hx⟩
          rw [List.mem_cons] at hmem
          rcases hmem with heq | hmem
          · subst heq
            rcases hx with ⟨htrue, _⟩ | ⟨_, hx⟩
            · rw [he] at htrue
              exact absurd htrue (by simp)
            · exact Or.inl hx
          · exact Or.inr ⟨lid', hmem, hx⟩

/-- The spec-described exit-source recursion satisfies the equations the
spec states (totality on every graph, cycles included; singleton for a
non-expanded object; real-start singleton for an in-progress flow; leaf
union with the real-start fallback otherwise).  The program's cached
computation diverges from it — see claim C2. -/
theorem exitSourceOids_spec_cases :
    (∀ (g : Graph) (computing : Finset Nat) (oid : Nat),
      isExpandedFlow g oid = false →
        exitSourceOids g computing oid = [oid]) ∧
    (∀ (g : Graph) (computing : Finset Nat) (oid : Nat),
      isExpandedFlow g oid = true → oid ∈ computing →
        ∃ rs, realStart g oid = some rs ∧
          exitSourceOids g computing oid = [rs]) ∧
    (∀ (g : Graph) (computing : Finset Nat) (oid : Nat),
      g.Closed = true → isExpandedFlow g oid = true → oid ∉ computing →
        (∀ x, x ∈ exitUnion g (insert oid computing) (leavesListOf g oid) ↔
          ∃ lid ∈ leavesListOf g oid,
            (isExpandedFlow g lid = true ∧
              x ∈ exitSourceOids g (insert oid computing) lid) ∨
            (isExpandedFlow g lid = false ∧ x = lid)) ∧
        (exitUnion g (insert oid computing) (leavesListOf g oid) ≠ [] →
          exitSourceOids g computing oid =
            exitUnion g (insert oid computing) (leavesListOf g oid)) ∧
        (exitUnion g (insert oid computing) (leavesListOf g oid) = [] →
          ∃ rs, realStart g oid = some rs ∧
            exitSourceOids g computing oid = [rs])) := by
  refine ⟨?_, ?_, ?_⟩
  · intro g computing oid h
    exact exitSourceOids_not_expanded g computing oid (by simp [h])
  · intro g computing oid h1 h2
    obtain ⟨o, _, _, _, rs, hrs⟩ := isExpandedFlow_elim h1
    refine ⟨rs, hrs, ?_⟩
    rw [exitSourceOids_in_computing g computing oid h1 h2, hrs]
  · intro g computing oid hc h1 h2
    refine ⟨?_, ?_, ?_⟩
    · intro x
      exact exitUnion_mem g (insert oid computing) (leavesListOf g oid)
        (fun lid hlid => by
          have := leavesListOf_subset_domain g hc oid h1 lid hlid
          cases hlk : g.lookup lid with
          | none => exact absurd this (lookup_none_not_mem_domain hlk)
          | some o => simp) x
    · intro hne
      rw [exitSourceOids_main g computing oid h1 h2]
      simp [List.isEmpty_iff, hne]
    · intro hemp
      obtain ⟨o, _, _, _, rs, hrs⟩ := isExpandedFlow_elim h1
      refine ⟨rs, hrs, ?_⟩
      rw [exitSourceOids_main g computing oid h1 h2, hemp]
      simp [hrs]

/-! ## The `exit_cache` divergence: the program's cached exit resolution
versus the spec-described recursion. -/

theorem exitUnionC_nil (g : Graph) (computing : Finset Nat)
    (cache : List (Nat × List Nat)) :
    exitUnionC g computing cache [] = ([], cache) := by
  rw [exitUnionC]

theorem exitUnionC_cons (g : Graph) (computing : Finset Nat)
    (cache : List (Nat × List Nat)) (lid : Nat) (rest : List Nat) :
    exitUnionC g computing cache (lid :: rest) =
      match g.lookup lid with
      | none => exitUnionC g computing cache rest
      | some _ =>
        if isExpandedFlow g lid then
          let r1 := exitSourceOidsC g computing cache lid
          let r2 := exitUnionC g computing r1.2 rest
          (r1.1 ++ r2.1, r2.2)
        else
          let r2 := exitUnionC g computing cache rest
          (lid :: r2.1, r2.2) := by
  rw [exitUnionC]

theorem exitSourceOidsC_eval (g : Graph) (computing : Finset Nat)
    (cache : List (Nat × List Nat)) (oid : Nat) :
    exitSourceOidsC g computing cache oid =
      if isExpandedFlow g oid = true then
        match cache.find? (fun p => p.1 = oid) with
        | some p => (p.2, cache)
        | none =>
          if oid ∈ computing then
            (match realStart g oid with
             | some rs => [rs]
             | none => [oid], cache)
          else
            let res := exitUnionC g (insert oid computing) cache
              (leavesListOf g oid)
            let withFallback :=
              if res.1.isEmpty then
                match realStart g oid with
                | some rs => [rs]
                | none => []
              else res.1
            let final := if withFallback.isEmpty then [oid] else withFallback
            (final, res.2 ++ [(oid, final)])
      else ([oid], cache) := by
  rw [exitSourceOidsC]
  by_cases h1 : isExpandedFlow g oid = true
  · rw [dif_pos h1, if_pos h1]
    cases hf : cache.find? (fun p => p.1 = oid) with
    | some p => rfl
    | none =>
      show (if h2 : oid ∈ computing then
          (match realStart g oid with
           | some rs => [rs]
           | none => [oid], cache)
        else
          let res := exitUnionC g (insert oid computing) cache
            (leavesListOf g oid)
          let withFallback :=
            if res.1.isEmpty then
              match realStart g oid with
              | some rs => [rs]
              | none => []
            else res.1
          let final := if withFallback.isEmpty then [oid] else withFallback
          (final, res.2 ++ [(oid, final)])) =
        (if oid ∈ computing then
          (match realStart g oid with
           | some rs => [rs]
           | none => [oid], cache)
        else
          let res := exitUnionC g (insert oid computing) cache
            (leavesListOf g oid)
          let withFallback :=
            if res.1.isEmpty then
              match realStart g oid with
              | some rs => [rs]
              | none => []
            else res.1
          let final := if withFallback.isEmpty then [oid] else withFallback
          (final, res.2 ++ [(oid, final)]))
      by_cases h2 : oid ∈ computing
      · rw [dif_pos h2, if_pos h2]
      · rw [dif_neg h2, if_neg h2]
  · rw [dif_neg h1, if_neg h1]

/-- C1 (amended): the containment mapping assigns each node identity to the
first flow in global visitation order whose body contains it, and a flow is
never recorded as its own parent (no self-loops in the parent pointers);
however the parent pointers need not form a forest — mutual containment can
create cycles of length two or more (see the counterexample). -/
theorem claim_C1 :
    (∀ (g : Graph) (order : List Nat) (nid : Nat),
      containerOf g order nid =
        (flowIds g order).find? (fun fid => decide (nid ∈ bodyOf g fid))) ∧
    (∀ (g : Graph) (order : List Nat) (fid p : Nat),
      parentOf g order fid = some p → p ≠ fid) := by
  constructor
  · intro g order nid
    rw [containerOf_eq_find]
    congr 1
    funext fid
    exact decide_eq_decide.mpr (by simp [bodyOf])
  · exact parentOf_ne_self

/-- C1 counterexample: on `gParentCycle` the parent pointers of flows 1 and
3 point at each other, so following parent pointers from flow 1 revisits
flow 1 after two steps — the containment relation is not a forest. -/
theorem claim_C1_counterexample :
    parentOf gParentCycle ((bfs gParentCycle 1).1) 1 = some 3 ∧
    parentOf gParentCycle ((bfs gParentCycle 1).1) 3 = some 1 ∧
    (parentOf gParentCycle ((bfs gParentCycle 1).1) 1).bind
      (fun q => parentOf gParentCycle ((bfs gParentCycle 1).1) q) = some 1 := by
  refine ⟨?_, ?_, ?_⟩ <;>
  simp [bfs, bfsAux_nil, bfsAux_cons, Graph.lookup, gParentCycle, childTargets,
    expandEdges, sortKeys, succGet, parentOf, containerOf, containerMap,
    flowIds, isFlowId, bodyListOf, localAux_nil, localAux_cons, setdefault,
    assocGet]

/-- C1 witness: the amended claim applied at concrete inputs — node 2's
container is flow 1 (the first flow whose body holds it), and the
self-parent exclusion applied to the concrete parent fact
`parentOf gParentCycle _ 1 = some 3`. -/
theorem claim_C1_witness :
    containerOf gParentCycle ((bfs gParentCycle 1).1) 2 =
      (flowIds gParentCycle ((bfs gParentCycle 1).1)).find?
        (fun fid => decide (2 ∈ bodyOf gParentCycle fid)) ∧
    (3 : Nat) ≠ 1 := by
  constructor
  · exact claim_C1.1 gParentCycle ((bfs gParentCycle 1).1) 2
  · apply claim_C1.2 gParentCycle ((bfs gParentCycle 1).1) 1 3
    simp [bfs, bfsAux_nil, bfsAux_cons, Graph.lookup, gParentCycle,
      childTargets, expandEdges, sortKeys, succGet, parentOf, containerOf,
      containerMap, flowIds, isFlowId, bodyListOf, localAux_nil, localAux_cons,
      setdefault, assocGet]

/-- C3: real-start resolution stops exactly at the first object that is not
a Flow with a `start_node` and returns it (whatever it returns fails the
continuation test); concretely, for flow 1 delegating to flow 2 delegating
to plain node 3, both flows resolve to node 3; a two-flow delegation cycle
resolves to no start for both flows, and the call still succeeds, emits the
warning, and highlights nothing. -/
theorem claim_C3 :
    (∀ (g : Graph) (fid y : Nat),
      realStart g fid = some y → isFlowWithStart g y = false) ∧
    (realStart gChain 1 = some 3 ∧ realStart gChain 2 = some 3) ∧
    (realStart gStartCycle 1 = none ∧ realStart gStartCycle 2 = none) ∧
    ((visualizeCore gStartCycle 1 [] none false true 1000).map
      (fun c =>
        (c.highlights, decide ("Flow has no resolvable start_node" ∈ c.warnings)))
      = .ok ([], true)) := by
  refine ⟨realStart_stop, ⟨?_, ?_⟩, ⟨?_, ?_⟩, ?_⟩ <;>
  simp [realStart, realStartAux_none, realStartAux_some, Graph.lookup, gChain,
    gStartCycle, visualizeCore, directionU, strUpper, validDirections,
    discover, discoverAux_nil, discoverAux_cons, childTargets, expandEdges,
    sortKeys, succGet, renderEdgesOf, exitSourceOids_not_expanded,
    exitSourceOids_in_computing, exitSourceOids_main, exitUnion_nil,
    exitUnion_cons, isExpandedFlow, entryOid, flowIds, isFlowId, containerOf,
    containerMap, bodyListOf, leavesListOf, localAux_nil, localAux_cons,
    setdefault, assocGet, expandedFlowIds, renderFlow_mem, renderFlow_eval,
    renderFlowList_nil, renderFlowList_cons, subgraphEnterSt, subgraphExitSt,
    childFlowIdsOf, plainIdsOf, declFold, bucketEdges, edgeContainer, ancWalk,
    ancWalkGo_mem, ancWalkGo_not_mem, parentOf, orderIndex, edgeKeyLe,
    mermaidId, nodeDef, labelFor, namesByObjId, classNameOf, setCounter,
    escapeStr, edgeLine, startTargetOf, topFlowStep, topDeclStep,
    highlightStep, highlightsOf] <;>
  rfl

/-- C3 witness: the stop property applied at a concrete input — flow 1 of
`gChain` resolves to node 3, which is not a Flow with a start. -/
theorem claim_C3_witness : isFlowWithStart gChain 3 = false := by
  apply claim_C3.1 gChain 1 3
  exact claim_C3.2.1.1

/-- The spec-described per-edge rewriting satisfies the claimed
membership characterization and dedup/entry facts.  The program's edge
rewriting (shared `exit_cache`) diverges from it — see claim C4. -/
theorem renderEdgesOf_spec_cases :
    (∀ (g : Graph) (order : List Nat) (edges : List (Nat × String × Nat))
        (e : Nat × String × Nat),
      e ∈ renderEdgesOf g order edges ↔
        ∃ s a t, (s, a, t) ∈ edges ∧ s ∈ order ∧ t ∈ order ∧
          e.1 ∈ exitSourceOids g ∅ s ∧ e.2.1 = a ∧ e.2.2 = entryOid g t) ∧
    (∀ (g : Graph) (order : List Nat) (edges : List (Nat × String × Nat)),
      (renderEdgesOf g order edges).Nodup) ∧
    (∀ (g : Graph) (oid : Nat),
      isExpandedFlow g oid = false → entryOid g oid = oid) ∧
    (∀ (g : Graph) (oid rs : Nat),
      isExpandedFlow g oid = true → realStart g oid = some rs →
        entryOid g oid = rs) := by
  refine ⟨renderEdgesOf_mem, renderEdgesOf_nodup, entryOid_not_expanded, ?_⟩
  intro g oid rs h1 h2
  exact entryOid_expanded g oid rs h1 h2

set_option maxHeartbeats 4000000 in
/-- C2 (code bug): the source memoizes exit-source resolutions in
`exit_cache`, keyed by identity alone although each value is computed
under the caller's `exit_computing` context, and the cache is consulted
before the in-progress check — so the program replays context-dependent
values in later, different contexts and diverges from the claimed
(in-progress-guarded, cache-free) recursion.  On `gCacheDiv`, resolving
flow 2 first (the program's edge order) caches `[8]` for the leaf flow 7
— a value produced under flow 6's in-progress context — and the
subsequent resolution of flow 3 replays it, returning `[8]` where the
claimed recursion yields `[9]`. -/
theorem claim_C2 :
    discover gCacheDiv 1 20 =
      .ok ([1, 2, 3, 4, 10, 5, 6, 7, 8, 9],
        [(1, "a", 3), (2, "z", 10), (3, "w", 10), (4, "m", 6), (5, "n", 7),
          (8, "p", 7), (9, "q", 6)]) ∧
    exitSourceOidsC gCacheDiv ∅ [] 2 =
      ([8], [(7, [8]), (6, [8]), (2, [8])]) ∧
    (exitSourceOidsC gCacheDiv ∅ [(7, [8]), (6, [8]), (2, [8])] 3).1 =
      [8] ∧
    exitSourceOids gCacheDiv ∅ 2 = [8] ∧
    exitSourceOids gCacheDiv ∅ 3 = [9] := by
  refine ⟨?_, ?_, ?_, ?_, ?_⟩ <;>
  simp [discover, discoverAux_nil, discoverAux_cons, Graph.lookup, gCacheDiv,
    childTargets, expandEdges, sortKeys, succGet, exitSourceOidsC_eval,
    exitUnionC_nil, exitUnionC_cons, exitSourceOids_not_expanded,
    exitSourceOids_in_computing, exitSourceOids_main, exitUnion_nil,
    exitUnion_cons, isExpandedFlow, realStart, realStartAux_none,
    realStartAux_some, leavesListOf, localAux_nil, localAux_cons,
    List.find?]

set_option maxHeartbeats 4000000 in
/-- C4 (code bug): the source's `render_edges` loop shares `exit_cache`
across edges, so the rewritten-edge set is not the claimed per-edge
rewriting: on `gCacheDiv` (traversing the discovered edges in discovery
order) the program rewrites the edge `(3, "w", 10)` to source `8` — the
replayed cached value — while the claimed per-edge resolution rewrites
it to source `9`; the two rewritten-edge sets agree everywhere else. -/
theorem claim_C4 :
    renderEdgesOfC gCacheDiv [1, 2, 3, 4, 10, 5, 6, 7, 8, 9]
        [(1, "a", 3), (2, "z", 10), (3, "w", 10), (4, "m", 6), (5, "n", 7),
          (8, "p", 7), (9, "q", 6)] =
      [(10, "a", 5), (8, "z", 10), (8, "w", 10), (4, "m", 8), (5, "n", 9),
        (8, "p", 9), (9, "q", 8)] ∧
    renderEdgesOf gCacheDiv [1, 2, 3, 4, 10, 5, 6, 7, 8, 9]
        [(1, "a", 3), (2, "z", 10), (3, "w", 10), (4, "m", 6), (5, "n", 7),
          (8, "p", 7), (9, "q", 6)] =
      [(10, "a", 5), (8, "z", 10), (9, "w", 10), (4, "m", 8), (5, "n", 9),
        (8, "p", 9), (9, "q", 8)] := by
  constructor <;>
  simp [renderEdgesOfC, renderEdgesOf, renderEdgeStepC, Graph.lookup,
    gCacheDiv, sortKeys, succGet, exitSourceOidsC_eval, exitUnionC_nil,
    exitUnionC_cons, exitSourceOids_not_expanded,
    exitSourceOids_in_computing, exitSourceOids_main, exitUnion_nil,
    exitUnion_cons, isExpandedFlow, realStart, realStartAux_none,
    realStartAux_some, entryOid, leavesListOf, localAux_nil, localAux_cons,
    List.find?] <;>
  rfl

/-! ## Budgeted versus unbudgeted discovery (the `max_nodes` check) -/

theorem bfsAux_cons_mem (g : Graph) (cid : Nat) (rest : List Nat)
    (visited : Finset Nat) (order : List Nat)
    (edges : List (Nat × String × Nat)) (hv : cid ∈ visited) :
    bfsAux g (cid :: rest) visited order edges =
      bfsAux g rest visited order edges := by
  rw [bfsAux_cons, if_pos hv]

theorem bfsAux_cons_none (g : Graph) (cid : Nat) (rest : List Nat)
    (visited : Finset Nat) (order : List Nat)
    (edges : List (Nat × String × Nat)) (hv : cid ∉ visited)
    (hl : g.lookup cid = none) :
    bfsAux g (cid :: rest) visited order edges =
      bfsAux g rest (insert cid visited) (order ++ [cid]) edges := by
  rw [bfsAux_cons, if_neg hv, hl]

theorem bfsAux_cons_some (g : Graph) (cid : Nat) (rest : List Nat)
    (visited : Finset Nat) (order : List Nat)
    (edges : List (Nat × String × Nat)) (o : Obj) (hv : cid ∉ visited)
    (hl : g.lookup cid = some o) :
    bfsAux g (cid :: rest) visited order edges =
      bfsAux g (rest ++ childTargets o) (insert cid visited) (order ++ [cid])
        (edges ++ expandEdges cid o) := by
  rw [bfsAux_cons, if_neg hv, hl]

/-- The traversal only appends to its accumulators: a run from arbitrary
accumulators is the run from empty accumulators, prefixed. -/
theorem bfsAux_acc (g : Graph) (queue : List Nat) (visited : Finset Nat) :
    ∀ (order : List Nat) (edges : List (Nat × String × Nat)),
      bfsAux g queue visited order edges =
        (order ++ (bfsAux g queue visited [] []).1,
          edges ++ (bfsAux g queue visited [] []).2) := by
  refine bfsAux.induct g
    (fun q v _ _ => ∀ (order : List Nat) (edges : List (Nat × String × Nat)),
      bfsAux g q v order edges =
        (order ++ (bfsAux g q v [] []).1, edges ++ (bfsAux g q v [] []).2))
    ?_ ?_ ?_ ?_ queue visited [] []
  · intro v _ _ order edges
    rw [bfsAux_nil, bfsAux_nil]
    simp
  · intro v _ _ cid rest hv ih order edges
    rw [bfsAux_cons_mem g cid rest v order edges hv,
      bfsAux_cons_mem g cid rest v [] [] hv, ih order edges]
  · intro v _ _ cid rest hv hl ih order edges
    rw [bfsAux_cons_none g cid rest v order edges hv hl,
      bfsAux_cons_none g cid rest v [] [] hv hl,
      ih (order ++ [cid]) edges, ih ([] ++ [cid]) []]
    simp
  · intro v _ _ cid rest hv o hl ih order edges
    rw [bfsAux_cons_some g cid rest v order edges o hv hl,
      bfsAux_cons_some g cid rest v [] [] o hv hl,
      ih (order ++ [cid]) (edges ++ expandEdges cid o),
      ih ([] ++ [cid]) ([] ++ expandEdges cid o)]
    simp

theorem bfsAux_acc_len (g : Graph) (queue : List Nat) (visited : Finset Nat)
    (order : List Nat) (edges : List (Nat × String × Nat)) :
    (bfsAux g queue visited order edges).1.length =
      order.length + (bfsAux g queue visited [] []).1.length := by
  rw [bfsAux_acc]
  simp

/-- Lockstep between the budgeted and the unbudgeted traversal: from a
state whose visit order is still within budget, the budgeted traversal
fails exactly when the unbudgeted one visits more identities than the
budget, and otherwise returns the unbudgeted result. -/
theorem discoverAux_spec (g : Graph) (maxNodes : Nat) :
    ∀ (queue : List Nat) (visited : Finset Nat) (order : List Nat)
      (edges : List (Nat × String × Nat)),
      order.length ≤ maxNodes →
      discoverAux g maxNodes queue visited order edges =
        if maxNodes < (bfsAux g queue visited order edges).1.length then
          .error "max_nodes exceeded"
        else .ok (bfsAux g queue visited order edges) := by
  intro queue visited order edges
  induction queue, visited, order, edges using discoverAux.induct g maxNodes with
  | case1 visited order edges =>
    intro hle
    rw [discoverAux_nil, bfsAux_nil]
    rw [if_neg (by simpa using Nat.not_lt.mpr hle)]
  | case2 visited order edges cid rest hv ih =>
    intro hle
    rw [discoverAux_cons, if_pos hv, ih hle,
      bfsAux_cons_mem g cid rest visited order edges hv]
  | case3 visited order edges cid rest hv hb =>
    intro hle
    rw [discoverAux_cons, if_neg hv, if_pos hb]
    have hgrow : (order ++ [cid]).length ≤
        (bfsAux g (cid :: rest) visited order edges).1.length := by
      cases hl : g.lookup cid with
      | none =>
        rw [bfsAux_cons_none g cid rest visited order edges hv hl,
          bfsAux_acc_len]
        exact Nat.le_add_right _ _
      | some o =>
        rw [bfsAux_cons_some g cid rest visited order edges o hv hl,
          bfsAux_acc_len]
        exact Nat.le_add_right _ _
    rw [if_pos (Nat.lt_of_lt_of_le hb hgrow)]
  | case4 visited order edges cid rest hv hb hl ih =>
    intro hle
    rw [discoverAux_cons, if_neg hv, if_neg hb, hl]
    show discoverAux g maxNodes rest (insert cid visited)
        (order ++ [cid]) edges = _
    rw [ih (Nat.not_lt.mp hb),
      bfsAux_cons_none g cid rest visited order edges hv hl]
  | case5 visited order edges cid rest hv hb o hl ih =>
    intro hle
    rw [discoverAux_cons, if_neg hv, if_neg hb, hl]
    show discoverAux g maxNodes (rest ++ childTargets o) (insert cid visited)
        (order ++ [cid]) (edges ++ expandEdges cid o) = _
    rw [ih (Nat.not_lt.mp hb),
      bfsAux_cons_some g cid rest visited order edges o hv hl]

/-- Budgeted discovery errors exactly when unbudgeted discovery visits
more identities than the budget, and otherwise returns its result. -/
theorem discover_spec (g : Graph) (root : Nat) (maxNodes : Nat) :
    discover g root maxNodes =
      if maxNodes < (bfs g root).1.length then .error "max_nodes exceeded"
      else .ok (bfs g root) := by
  unfold discover bfs
  exact discoverAux_spec g maxNodes [root] ∅ [] [] (Nat.zero_le _)

/-- Every identity the traversal visits is reachable. -/
theorem bfsAux_sound (g : Graph) (root : Nat) (queue : List Nat)
    (visited : Finset Nat) (order : List Nat)
    (edges : List (Nat × String × Nat)) :
    (∀ x ∈ queue, Reach g root x) → (∀ x ∈ order, Reach g root x) →
    ∀ x ∈ (bfsAux g queue visited order edges).1, Reach g root x := by
  induction queue, visited, order, edges using bfsAux.induct g with
  | case1 visited order edges =>
    intro _ hord
    rw [bfsAux_nil]
    exact hord
  | case2 visited order edges cid rest hv ih =>
    intro hq hord
    rw [bfsAux_cons_mem g cid rest visited order edges hv]
    exact ih (fun x hx => hq x (List.mem_cons_of_mem _ hx)) hord
  | case3 visited order edges cid rest hv hl ih =>
    intro hq hord
    rw [bfsAux_cons_none g cid rest visited order edges hv hl]
    refine ih (fun x hx => hq x (List.mem_cons_of_mem _ hx)) ?_
    intro x hx
    rcases List.mem_append.mp hx with hx | hx
    · exact hord x hx
    · rw [List.mem_singleton] at hx
      subst hx
      exact hq x (List.mem_cons_self _ _)
  | case4 visited order edges cid rest hv o hl ih =>
    intro hq hord
    rw [bfsAux_cons_some g cid rest visited order edges o hv hl]
    refine ih ?_ ?_
    · intro x hx
      rcases List.mem_append.mp hx with hx | hx
      · exact hq x (List.mem_cons_of_mem _ hx)
      · exact Reach.step (hq cid (List.mem_cons_self _ _)) hl hx
    · intro x hx
      rcases List.mem_append.mp hx with hx | hx
      · exact hord x hx
      · rw [List.mem_singleton] at hx
        subst hx
        exact hq x (List.mem_cons_self _ _)

/-- The visit-order accumulator is a prefix of the result. -/
theorem bfsAux_prefix (g : Graph) (queue : List Nat) (visited : Finset Nat)
    (order : List Nat) (edges : List (Nat × String × Nat)) :
    ∀ x ∈ order, x ∈ (bfsAux g queue visited order edges).1 := by
  intro x hx
  rw [bfsAux_acc]
  exact List.mem_append.mpr (Or.inl hx)

/-- The main traversal invariant: with the visited set mirroring the visit
order, every queued identity ends in the result, the result is
duplicate-free, and the result is closed under child expansion. -/
theorem bfsAux_inv (g : Graph) (queue : List Nat) (visited : Finset Nat)
    (order : List Nat) (edges : List (Nat × String × Nat)) :
    visited = order.toFinset → order.Nodup →
    (∀ x ∈ order, ∀ o, g.lookup x = some o →
      ∀ y ∈ childTargets o, y ∈ visited ∨ y ∈ queue) →
    (∀ x ∈ queue, x ∈ (bfsAux g queue visited order edges).1) ∧
    (bfsAux g queue visited order edges).1.Nodup ∧
    (∀ x ∈ (bfsAux g queue visited order edges).1, ∀ o,
      g.lookup x = some o →
      ∀ y ∈ childTargets o, y ∈ (bfsAux g queue visited order edges).1) := by
  induction queue, visited, order, edges using bfsAux.induct g with
  | case1 visited order edges =>
    intro hveq hnd hcl
    rw [bfsAux_nil]
    refine ⟨fun x hx => absurd hx (List.not_mem_nil x), hnd, ?_⟩
    intro x hx o ho y hy
    rcases hcl x hx o ho y hy with h | h
    · rw [hveq] at h
      exact List.mem_toFinset.mp h
    · exact absurd h (List.not_mem_nil y)
  | case2 visited order edges cid rest hv ih =>
    intro hveq hnd hcl
    rw [bfsAux_cons_mem g cid rest visited order edges hv]
    have hcl' : ∀ x ∈ order, ∀ o, g.lookup x = some o →
        ∀ y ∈ childTargets o, y ∈ visited ∨ y ∈ rest := by
      intro x hx o ho y hy
      rcases hcl x hx o ho y hy with h | h
      · exact Or.inl h
      · rcases List.mem_cons.mp h with h | h
        · subst h
          exact Or.inl hv
        · exact Or.inr h
    obtain ⟨ha, hb, hc⟩ := ih hveq hnd hcl'
    refine ⟨?_, hb, hc⟩
    intro x hx
    rcases List.mem_cons.mp hx with h | h
    · subst h
      refine bfsAux_prefix g rest visited order edges x ?_
      rw [hveq] at hv
      exact List.mem_toFinset.mp hv
    · exact ha x h
  | case3 visited order edges cid rest hv hl ih =>
    intro hveq hnd hcl
    have hco : cid ∉ order := fun h => hv (by
      rw [hveq]
      exact List.mem_toFinset.mpr h)
    have hveq' : insert cid visited = (order ++ [cid]).toFinset := by
      rw [hveq]
      ext y
      simp [or_comm]
    have hnd' : (order ++ [cid]).Nodup := by
      simp [List.nodup_append, hnd, hco]
    have hcl' : ∀ x ∈ order ++ [cid], ∀ o, g.lookup x = some o →
        ∀ y ∈ childTargets o, y ∈ insert cid visited ∨ y ∈ rest := by
      intro x hx o ho y hy
      rcases List.mem_append.mp hx with hx | hx
      · rcases hcl x hx o ho y hy with h | h
        · exact Or.inl (Finset.mem_insert_of_mem h)
        · rcases List.mem_cons.mp h with h | h
          · subst h
            exact Or.inl (Finset.mem_insert_self _ _)
          · exact Or.inr h
      · rw [List.mem_singleton] at hx
        subst hx
        exact Option.noConfusion (hl.symm.trans ho)
    obtain ⟨ha, hb, hc⟩ := ih hveq' hnd' hcl'
    rw [bfsAux_cons_none g cid rest visited order edges hv hl]
    refine ⟨?_, hb, hc⟩
    intro x hx
    rcases List.mem_cons.mp hx with h | h
    · subst h
      exact bfsAux_prefix g rest (insert x visited) (order ++ [x]) edges x
        (List.mem_append.mpr (Or.inr (List.mem_singleton.mpr rfl)))
    · exact ha x h
  | case4 visited order edges cid rest hv o hl ih =>
    intro hveq hnd hcl
    have hco : cid ∉ order := fun h => hv (by
      rw [hveq]
      exact List.mem_toFinset.mpr h)
    have hveq' : insert cid visited = (order ++ [cid]).toFinset := by
      rw [hveq]
      ext y
      simp [or_comm]
    have hnd' : (order ++ [cid]).Nodup := by
      simp [List.nodup_append, hnd, hco]
    have hcl' : ∀ x ∈ order ++ [cid], ∀ o2, g.lookup x = some o2 →
        ∀ y ∈ childTargets o2, y ∈ insert cid visited ∨
          y ∈ rest ++ childTargets o := by
      intro x hx o2 ho y hy
      rcases List.mem_append.mp hx with hx | hx
      · rcases hcl x hx o2 ho y hy with h | h
        · exact Or.inl (Finset.mem_insert_of_mem h)
        · rcases List.mem_cons.mp h with h | h
          · subst h
            exact Or.inl (Finset.mem_insert_self _ _)
          · exact Or.inr (List.mem_append.mpr (Or.inl h))
      · rw [List.mem_singleton] at hx
        subst hx
        have ho2 : o2 = o := Option.some.inj (ho.symm.trans hl)
        subst ho2
        exact Or.inr (List.mem_append.mpr (Or.inr hy))
    obtain ⟨ha, hb, hc⟩ := ih hveq' hnd' hcl'
    rw [bfsAux_cons_some g cid rest visited order edges o hv hl]
    refine ⟨?_, hb, hc⟩
    intro x hx
    rcases List.mem_cons.mp hx with h | h
    · subst h
      exact bfsAux_prefix g (rest ++ childTargets o) (insert x visited)
        (order ++ [x]) (edges ++ expandEdges x o) x
        (List.mem_append.mpr (Or.inr (List.mem_singleton.mpr rfl)))
    · exact ha x (List.mem_append.mpr (Or.inl h))

/-- The unbudgeted visit order is duplicate-free. -/
theorem bfs_nodup (g : Graph) (root : Nat) : (bfs g root).1.Nodup :=
  (bfsAux_inv g [root] ∅ [] [] (by simp) List.nodup_nil
    (fun z hz => absurd hz (List.not_mem_nil z))).2.1

/-- The unbudgeted visit order enumerates exactly the reachable
identities. -/
theorem bfs_mem_iff (g : Graph) (root x : Nat) :
    x ∈ (bfs g root).1 ↔ Reach g root x := by
  constructor
  · intro hx
    refine bfsAux_sound g root [root] ∅ [] [] ?_ ?_ x hx
    · intro y hy
      rw [List.mem_singleton] at hy
      subst hy
      exact Reach.entry
    · intro y hy
      exact absurd hy (List.not_mem_nil y)
  · intro hr
    have hinv := bfsAux_inv g [root] ∅ [] [] (by simp) List.nodup_nil
      (fun z hz => absurd hz (List.not_mem_nil z))
    induction hr with
    | entry => exact hinv.1 root (List.mem_singleton.mpr rfl)
    | @step a b o2 ha hlk hy ih => exact hinv.2.2 a ih o2 hlk b hy

/-- Error propagation of a failing discovery through `visualizeCore`. -/
theorem visualizeCore_discover_error (g : Graph) (root : Nat)
    (ns : List (String × Nat)) (dir : Option String) (sd hs : Bool) (m : Int)
    (e : String) (hdir : directionU dir ∈ validDirections) (hm : 0 < m)
    (hde : discover g root m.toNat = .error e) :
    visualizeCore g root ns dir sd hs m = .error e := by
  unfold visualizeCore
  rw [if_neg (not_not_intro hdir), if_neg (not_le.mpr hm), hde]

/-- A successful discovery always yields a successful call. -/
theorem visualizeCore_discover_ok (g : Graph) (root : Nat)
    (ns : List (String × Nat)) (dir : Option String) (sd hs : Bool) (m : Int)
    (p : List Nat × List (Nat × String × Nat))
    (hdir : directionU dir ∈ validDirections) (hm : 0 < m)
    (hdo : discover g root m.toNat = .ok p) :
    ∃ c, visualizeCore g root ns dir sd hs m = .ok c := by
  obtain ⟨ord, ed⟩ := p
  unfold visualizeCore
  rw [if_neg (not_not_intro hdir), if_neg (not_le.mpr hm), hdo]
  exact ⟨_, rfl⟩

/-! ## Start-less flows (claim C9 machinery): what gets opened as a
subgraph block, and the highlight pass. -/

theorem subgraphEnterSt_opened (g : Graph) (order : List Nat)
    (ns : List (String × Nat)) (fid : Nat) (indent : String) (st : RenderSt) :
    (subgraphEnterSt g order ns fid indent st).opened = st.opened ++ [fid] :=
  rfl

theorem subgraphExitSt_opened (g : Graph) (order : List Nat)
    (redges : List (Nat × String × Nat)) (sd : Bool) (fid : Nat)
    (indent : String) (st : RenderSt) :
    (subgraphExitSt g order redges sd fid indent st).opened = st.opened :=
  rfl

theorem topDeclStep_opened (g : Graph) (order : List Nat)
    (ns : List (String × Nat)) (st : RenderSt) (oid : Nat) :
    (topDeclStep g order ns st oid).opened = st.opened := by
  unfold topDeclStep
  split
  · rfl
  · rfl

theorem foldl_opened_eq {α : Type} (step : RenderSt → α → RenderSt)
    (hstep : ∀ st a, (step st a).opened = st.opened) (l : List α) :
    ∀ st, (l.foldl step st).opened = st.opened := by
  induction l with
  | nil =>
    intro st
    rw [List.foldl_nil]
  | cons a t ih =>
    intro st
    rw [List.foldl_cons, ih, hstep]

theorem foldl_opened_sub {α : Type} (step : RenderSt → α → RenderSt)
    (P : Nat → Prop)
    (hstep : ∀ st a, ∀ x ∈ (step st a).opened, x ∈ st.opened ∨ P x)
    (l : List α) : ∀ st, ∀ x ∈ (l.foldl step st).opened,
      x ∈ st.opened ∨ P x := by
  induction l with
  | nil =>
    intro st x hx
    rw [List.foldl_nil] at hx
    exact Or.inl hx
  | cons a t ih =>
    intro st x hx
    rw [List.foldl_cons] at hx
    rcases ih _ x hx with h | h
    · exact hstep st a x h
    · exact Or.inr h

theorem mem_expandedFlowIds {g : Graph} {order : List Nat} {x : Nat}
    (h : x ∈ expandedFlowIds g order) : isExpandedFlow g x = true := by
  unfold expandedFlowIds at h
  rw [List.mem_filter] at h
  simpa using h.2

theorem childFlowIdsOf_sub {g : Graph} {order : List Nat} {fid x : Nat}
    (h : x ∈ childFlowIdsOf g order fid) :
    x ∈ expandedFlowIds g order := by
  unfold childFlowIdsOf at h
  rw [List.mem_mergeSort, List.mem_filter] at h
  have h2 := h.2
  simp only [Bool.and_eq_true, decide_eq_true_eq] at h2
  exact h2.1.2

/-- Everything a subgraph-rendering call appends to the opened-blocks list
is the flow itself or one of the expanded discovered flows. -/
theorem renderFlow_opened_sub (g : Graph) (order : List Nat)
    (ns : List (String × Nat)) (redges : List (Nat × String × Nat))
    (sd : Bool) (stack : Finset Nat) (fid : Nat) (indent : String)
    (st : RenderSt) :
    ∀ x ∈ (renderFlow g order ns redges sd stack fid indent st).opened,
      x ∈ st.opened ∨ x = fid ∨ x ∈ expandedFlowIds g order := by
  refine renderFlow.induct g order ns redges sd
    (fun stack fid indent _ => ∀ st,
      ∀ x ∈ (renderFlow g order ns redges sd stack fid indent st).opened,
        x ∈ st.opened ∨ x = fid ∨ x ∈ expandedFlowIds g order)
    (fun stack l indent _ => ∀ st,
      ∀ x ∈ (renderFlowList g order ns redges sd stack l indent st).opened,
        x ∈ st.opened ∨ x ∈ l ∨ x ∈ expandedFlowIds g order)
    ?_ ?_ ?_ ?_ ?_ stack fid indent st st
  · intro stack fid indent _ h st x hx
    rw [renderFlow_mem g order ns redges sd stack fid indent st h] at hx
    exact Or.inl hx
  · intro stack fid indent _ h hnone st x hx
    rw [renderFlow_eval g order ns redges sd stack fid indent st h] at hx
    simp only [hnone] at hx
    exact Or.inl hx
  · intro stack fid indent _ h o hl ih st x hx
    rw [renderFlow_eval g order ns redges sd stack fid indent st h] at hx
    simp only [hl] at hx
    rw [subgraphExitSt_opened] at hx
    rcases ih _ x hx with h1 | h1 | h1
    · rw [subgraphEnterSt_opened] at h1
      rcases List.mem_append.mp h1 with h2 | h2
      · exact Or.inl h2
      · rw [List.mem_singleton] at h2
        exact Or.inr (Or.inl h2)
    · exact Or.inr (Or.inr (childFlowIdsOf_sub h1))
    · exact Or.inr (Or.inr h1)
  · intro stack indent _ st x hx
    rw [renderFlowList_nil] at hx
    exact Or.inl hx
  · intro stack indent _ cid rest ih1 ih2 st x hx
    rw [renderFlowList_cons] at hx
    rcases ih2 _ x hx with h1 | h1 | h1
    · rcases ih1 st x h1 with h2 | h2 | h2
      · exact Or.inl h2
      · exact Or.inr (Or.inl (by rw [h2]; exact List.mem_cons_self _ _))
      · exact Or.inr (Or.inr h2)
    · exact Or.inr (Or.inl (List.mem_cons_of_mem _ h1))
    · exact Or.inr (Or.inr h1)

theorem topFlowStep_opened_sub (g : Graph) (order : List Nat)
    (ns : List (String × Nat)) (redges : List (Nat × String × Nat))
    (sd : Bool) (root : Nat) (st : RenderSt) (fid : Nat) :
    ∀ x ∈ (topFlowStep g order ns redges sd root st fid).opened,
      x ∈ st.opened ∨ x ∈ expandedFlowIds g order := by
  unfold topFlowStep
  by_cases hc : fid ≠ root ∧ fid ∈ expandedFlowIds g order ∧
      containerOf g order fid = none ∧ fid ∉ st.renderedFlows
  · rw [if_pos hc]
    intro x hx
    rcases renderFlow_opened_sub g order ns redges sd ∅ fid "  " st x hx
      with h | h | h
    · exact Or.inl h
    · exact Or.inr (by rw [h]; exact hc.2.1)
    · exact Or.inr h
  · rw [if_neg hc]
    exact fun x hx => Or.inl hx

/-- Every subgraph block a successful run opens belongs to an expanded
flow; in particular a start-less flow never opens one. -/
theorem visualizeCore_opened_expanded (g : Graph) (root : Nat)
    (ns : List (String × Nat)) (dir : Option String) (sd hs : Bool)
    (m : Int) (c : CoreOut)
    (h : visualizeCore g root ns dir sd hs m = .ok c) :
    ∀ x ∈ c.opened, isExpandedFlow g x = true := by
  unfold visualizeCore at h
  by_cases h1 : directionU dir ∉ validDirections
  · rw [if_pos h1] at h
    exact absurd h (by simp)
  · rw [if_neg h1] at h
    by_cases h2 : m ≤ 0
    · rw [if_pos h2] at h
      exact absurd h (by simp)
    · rw [if_neg h2] at h
      cases hd : discover g root m.toNat with
      | error e =>
        rw [hd] at h
        exact absurd h (by simp)
      | ok oe =>
        rw [hd] at h
        obtain ⟨order, edges⟩ := oe
        simp only [Except.ok.injEq] at h
        subst h
        simp only
        intro x hx
        rw [foldl_opened_eq (topDeclStep g order ns)
          (topDeclStep_opened g order ns) order] at hx
        rcases foldl_opened_sub
            (topFlowStep g order ns (renderEdgesOf g order edges) sd root)
            (fun y => y ∈ expandedFlowIds g order)
            (topFlowStep_opened_sub g order ns (renderEdgesOf g order edges)
              sd root)
            (flowIds g order) _ x hx with h3 | h3
        · by_cases hroot : root ∈ expandedFlowIds g order
          · rw [if_pos hroot] at h3
            rcases renderFlow_opened_sub g order ns
                (renderEdgesOf g order edges) sd ∅ root "  " _ x h3
              with h4 | h4 | h4
            · exact absurd h4 (List.not_mem_nil x)
            · rw [h4]
              exact mem_expandedFlowIds hroot
            · exact mem_expandedFlowIds h4
          · rw [if_neg hroot] at h3
            exact absurd h3 (List.not_mem_nil x)
        · exact mem_expandedFlowIds h3

/-- A `Flow` whose `start_node` is absent has no resolvable real start. -/
theorem realStart_none_of_startless (g : Graph) (fid : Nat) (o : Obj)
    (hl : g.lookup fid = some o) (hs : o.startNode = none) :
    realStart g fid = none := by
  unfold realStart
  rw [hl, show (some o).bind Obj.startNode = o.startNode from rfl, hs]
  exact realStartAux_none g ∅

theorem isExpandedFlow_of_startless (g : Graph) (fid : Nat) (o : Obj)
    (hl : g.lookup fid = some o) (hs : o.startNode = none) :
    isExpandedFlow g fid = false := by
  unfold isExpandedFlow
  rw [hl]
  show (o.isFlow && o.startNode.isSome && (realStart g fid).isSome) = false
  rw [hs]
  simp

/-- A flow with no resolvable real start contributes nothing to the
highlight set and appends the warning instead. -/
theorem highlightStep_noStart (g : Graph) (order : List Nat)
    (acc : List Nat × List String) (fid : Nat)
    (hrs : realStart g fid = none) :
    highlightStep g order acc fid =
      (acc.1, acc.2 ++ ["Flow has no resolvable start_node"]) := by
  unfold highlightStep
  rw [hrs]

theorem highlightStep_some (g : Graph) (order : List Nat)
    (acc : List Nat × List String) (fid rs : Nat)
    (hrs : realStart g fid = some rs) :
    highlightStep g order acc fid =
      if rs ∈ order then
        (if rs ∈ acc.1 then acc.1 else acc.1 ++ [rs], acc.2)
      else (acc.1, acc.2 ++ ["Flow has no resolvable start_node"]) := by
  unfold highlightStep
  rw [hrs]

theorem highlightStep_warn_mono (g : Graph) (order : List Nat)
    (acc : List Nat × List String) (fid : Nat) (w : String)
    (hw : w ∈ acc.2) : w ∈ (highlightStep g order acc fid).2 := by
  cases hrs : realStart g fid with
  | none =>
    rw [highlightStep_noStart g order acc fid hrs]
    exact List.mem_append.mpr (Or.inl hw)
  | some rs =>
    rw [highlightStep_some g order acc fid rs hrs]
    by_cases hmem : rs ∈ order
    · rw [if_pos hmem]
      exact hw
    · rw [if_neg hmem]
      exact List.mem_append.mpr (Or.inl hw)

theorem highlight_fold_warn_mono (g : Graph) (order : List Nat)
    (l : List Nat) : ∀ (acc : List Nat × List String) (w : String),
      w ∈ acc.2 → w ∈ (l.foldl (highlightStep g order) acc).2 := by
  induction l with
  | nil =>
    intro acc w hw
    exact hw
  | cons a t ih =>
    intro acc w hw
    rw [List.foldl_cons]
    exact ih _ w (highlightStep_warn_mono g order acc a w hw)

/-- The highlight pass warns for every discovered flow with no resolvable
real start. -/
theorem highlight_fold_warn (g : Graph) (order : List Nat) (l : List Nat)
    (fid : Nat) (hrs : realStart g fid = none) :
    ∀ acc : List Nat × List String, fid ∈ l →
      "Flow has no resolvable start_node" ∈
        (l.foldl (highlightStep g order) acc).2 := by
  induction l with
  | nil =>
    intro acc h
    exact absurd h (List.not_mem_nil fid)
  | cons a t ih =>
    intro acc h
    rw [List.foldl_cons]
    rcases List.mem_cons.mp h with h | h
    · refine highlight_fold_warn_mono g order t _ _ ?_
      rw [← h, highlightStep_noStart g order acc fid hrs]
      exact List.mem_append.mpr (Or.inr (List.mem_singleton.mpr rfl))
    · exact ih _ h

/-- With highlighting enabled, a successful run warns once per discovered
flow with no resolvable real start. -/
theorem visualizeCore_noStart_warn (g : Graph) (root : Nat)
    (ns : List (String × Nat)) (dir : Option String) (sd : Bool) (m : Int)
    (c : CoreOut) (fid : Nat)
    (h : visualizeCore g root ns dir sd true m = .ok c)
    (hmem : fid ∈ flowIds g c.order) (hrs : realStart g fid = none) :
    "Flow has no resolvable start_node" ∈ c.warnings := by
  unfold visualizeCore at h
  by_cases h1 : directionU dir ∉ validDirections
  · rw [if_pos h1] at h
    exact absurd h (by simp)
  · rw [if_neg h1] at h
    by_cases h2 : m ≤ 0
    · rw [if_pos h2] at h
      exact absurd h (by simp)
    · rw [if_neg h2] at h
      cases hd : discover g root m.toNat with
      | error e =>
        rw [hd] at h
        exact absurd h (by simp)
      | ok oe =>
        rw [hd] at h
        obtain ⟨order, edges⟩ := oe
        simp only [Except.ok.injEq] at h
        subst h
        simp only
        simp only at hmem
        refine List.mem_append.mpr (Or.inr ?_)
        unfold highlightsOf
        rw [if_pos rfl]
        exact highlight_fold_warn g order (flowIds g order) fid hrs
          ([], []) hmem

/-- C9 (amended): a flow whose `start_node` is absent is not an expanded
flow and has no resolvable real start; it never opens a subgraph block in
any successful run; its highlight step contributes no node to the
highlight set and appends the warning instead; and with highlighting
enabled a successful run that discovered it warns.  (It need not render
as an opaque node declaration — see the counterexample, where a
start-less flow is absent from the output entirely.) -/
theorem claim_C9 :
    (∀ (g : Graph) (fid : Nat) (o : Obj), g.lookup fid = some o →
        o.startNode = none →
        isExpandedFlow g fid = false ∧ realStart g fid = none) ∧
    (∀ (g : Graph) (root : Nat) (ns : List (String × Nat))
        (dir : Option String) (sd hs : Bool) (m : Int) (c : CoreOut)
        (fid : Nat) (o : Obj),
        visualizeCore g root ns dir sd hs m = .ok c →
        g.lookup fid = some o → o.startNode = none →
        fid ∉ c.opened) ∧
    (∀ (g : Graph) (order : List Nat) (acc : List Nat × List String)
        (fid : Nat) (o : Obj), g.lookup fid = some o → o.startNode = none →
        highlightStep g order acc fid =
          (acc.1, acc.2 ++ ["Flow has no resolvable start_node"])) ∧
    (∀ (g : Graph) (root : Nat) (ns : List (String × Nat))
        (dir : Option String) (sd : Bool) (m : Int) (c : CoreOut)
        (fid : Nat) (o : Obj),
        visualizeCore g root ns dir sd true m = .ok c →
        g.lookup fid = some o → o.startNode = none →
        fid ∈ flowIds g c.order →
        "Flow has no resolvable start_node" ∈ c.warnings) := by
  refine ⟨?_, ?_, ?_, ?_⟩
  · intro g fid o hl hs
    exact ⟨isExpandedFlow_of_startless g fid o hl hs,
      realStart_none_of_startless g fid o hl hs⟩
  · intro g root ns dir sd hs m c fid o hok hl hstart hmem
    have hexp := visualizeCore_opened_expanded g root ns dir sd hs m c hok
      fid hmem
    rw [isExpandedFlow_of_startless g fid o hl hstart] at hexp
    exact Bool.noConfusion hexp
  · intro g order acc fid o hl hs
    exact highlightStep_noStart g order acc fid
      (realStart_none_of_startless g fid o hl hs)
  · intro g root ns dir sd m c fid o hok hl hs hmem
    exact visualizeCore_noStart_warn g root ns dir sd m c fid hok hmem
      (realStart_none_of_startless g fid o hl hs)

set_option maxHeartbeats 2000000 in
/-- C9 counterexample to the original claim: in `gOmitted`, identity 3 is
a `Flow` with no `start_node`, the call succeeds, and the output contains
no subgraph block for it but also no opaque node declaration — nothing is
declared or opened at all (and nothing is highlighted). -/
theorem claim_C9_counterexample :
    gOmitted.lookup 3 = some ⟨true, none, [], "Flow"⟩ ∧
    (visualizeCore gOmitted 1 [("a", 1)] (some "LR") false true 10).map
      (fun c => (c.opened, c.declared, c.highlights)) =
      .ok ([], [], []) := by
  constructor
  · rfl
  · simp [visualizeCore, directionU, strUpper, validDirections, discover,
      discoverAux_nil, discoverAux_cons, Graph.lookup, gOmitted, childTargets,
      expandEdges, sortKeys, succGet, renderEdgesOf,
      exitSourceOids_not_expanded, exitSourceOids_in_computing,
      exitSourceOids_main, exitUnion_nil, exitUnion_cons, isExpandedFlow,
      realStart, realStartAux_none, realStartAux_some, entryOid, flowIds,
      isFlowId, containerOf, containerMap, bodyListOf, leavesListOf,
      localAux_nil, localAux_cons, setdefault, assocGet, expandedFlowIds,
      renderFlow_mem, renderFlow_eval, renderFlowList_nil, renderFlowList_cons,
      subgraphEnterSt, subgraphExitSt, childFlowIdsOf, plainIdsOf, declFold,
      bucketEdges, edgeContainer, ancWalk, ancWalkGo_mem, ancWalkGo_not_mem,
      parentOf, orderIndex, edgeKeyLe, mermaidId, nodeDef, labelFor,
      namesByObjId, classNameOf, setCounter, escapeStr, edgeLine,
      startTargetOf, topFlowStep, topDeclStep, highlightStep, highlightsOf] <;>
    rfl

/-- C9 witness: the start-less-flow facts applied to flow 3 of `gOmitted`:
not expanded, no real start, and its highlight step only warns. -/
theorem claim_C9_witness :
    isExpandedFlow gOmitted 3 = false ∧ realStart gOmitted 3 = none ∧
    highlightStep gOmitted [1, 2, 3] ([], []) 3 =
      ([], ["Flow has no resolvable start_node"]) := by
  obtain ⟨h1, h2⟩ := claim_C9.1 gOmitted 3 ⟨true, none, [], "Flow"⟩ rfl rfl
  exact ⟨h1, h2,
    claim_C9.2.2.1 gOmitted [1, 2, 3] ([], []) 3 ⟨true, none, [], "Flow"⟩
      rfl rfl⟩

/-- C6: with a valid direction, the call fails exactly on a non-positive
node budget (rejected before any traversal, on every graph) or on the
number of distinct visited identities exceeding the budget.  The visit
order of discovery is duplicate-free and enumerates exactly the
identities reachable from the entry object, so its length is the true
reachable node count: a budget below that count fails fatally with
"max_nodes exceeded", a budget at least that count succeeds. -/
theorem claim_C6 :
    (∀ (g : Graph) (root : Nat) (ns : List (String × Nat))
        (dir : Option String) (sd hs : Bool) (m : Int),
        directionU dir ∈ validDirections → m ≤ 0 →
        visualizeCore g root ns dir sd hs m =
          .error "max_nodes must be a positive integer") ∧
    (∀ (g : Graph) (root : Nat),
        (bfs g root).1.Nodup ∧ ∀ x, x ∈ (bfs g root).1 ↔ Reach g root x) ∧
    (∀ (g : Graph) (root : Nat) (ns : List (String × Nat))
        (dir : Option String) (sd hs : Bool) (m : Int),
        directionU dir ∈ validDirections → 0 < m →
        ((visualizeCore g root ns dir sd hs m = .error "max_nodes exceeded" ↔
            m.toNat < (bfs g root).1.length) ∧
          ((∃ c, visualizeCore g root ns dir sd hs m = .ok c) ↔
            (bfs g root).1.length ≤ m.toNat))) := by
  refine ⟨?_, ?_, ?_⟩
  · intro g root ns dir sd hs m hdir hm
    unfold visualizeCore
    rw [if_neg (not_not_intro hdir), if_pos hm]
  · intro g root
    exact ⟨bfs_nodup g root, fun x => bfs_mem_iff g root x⟩
  · intro g root ns dir sd hs m hdir hm
    constructor
    · constructor
      · intro herr
        by_contra hlen
        obtain ⟨c, hc⟩ := visualizeCore_discover_ok g root ns dir sd hs m
          (bfs g root) hdir hm (by rw [discover_spec, if_neg hlen])
        rw [herr] at hc
        exact Except.noConfusion hc
      · intro hlen
        exact visualizeCore_discover_error g root ns dir sd hs m
          "max_nodes exceeded" hdir hm (by rw [discover_spec, if_pos hlen])
    · constructor
      · rintro ⟨c, hc⟩
        by_contra hlen
        have hde := visualizeCore_discover_error g root ns dir sd hs m
          "max_nodes exceeded" hdir hm
          (by rw [discover_spec, if_pos (not_le.mp hlen)])
        rw [hc] at hde
        exact Except.noConfusion hde
      · intro hlen
        exact visualizeCore_discover_ok g root ns dir sd hs m (bfs g root)
          hdir hm (by rw [discover_spec, if_neg (Nat.not_lt.mpr hlen)])

/-- C6 witness: on the two-object graph (reachable count 2), budget 0 is
rejected before traversal, budget 1 fails with "max_nodes exceeded", and
budget 2 succeeds. -/
theorem claim_C6_witness :
    visualizeCore gSimple 1 [("f", 1)] (some "LR") false false 0 =
      .error "max_nodes must be a positive integer" ∧
    visualizeCore gSimple 1 [("f", 1)] (some "LR") false false 1 =
      .error "max_nodes exceeded" ∧
    ∃ c, visualizeCore gSimple 1 [("f", 1)] (some "LR") false false 2 =
      .ok c := by
  have hlen : (bfs gSimple 1).1 = [1, 2] := by
    simp [bfs, bfsAux_cons, bfsAux_nil, Graph.lookup, gSimple, childTargets,
      sortKeys, succGet, expandEdges]
  refine ⟨claim_C6.1 gSimple 1 [("f", 1)] (some "LR") false false 0
      (by decide) (by decide), ?_, ?_⟩
  · exact (claim_C6.2.2 gSimple 1 [("f", 1)] (some "LR") false false 1
      (by decide) (by decide)).1.mpr (by rw [hlen]; decide)
  · exact (claim_C6.2.2 gSimple 1 [("f", 1)] (some "LR") false false 2
      (by decide) (by decide)).2.mpr (by rw [hlen]; decide)

/-! ## The local body traversal: accumulators, duplicates, closure
(claim C5 machinery). -/

theorem localAux_cons_mem (g : Graph) (nid : Nat) (rest : List Nat)
    (seen : Finset Nat) (body leaves : List Nat) (hmem : nid ∈ seen) :
    localAux g (nid :: rest) seen body leaves =
      localAux g rest seen body leaves := by
  rw [localAux_cons, if_pos hmem]

theorem localAux_cons_none (g : Graph) (nid : Nat) (rest : List Nat)
    (seen : Finset Nat) (body leaves : List Nat) (hmem : nid ∉ seen)
    (hlk : g.lookup nid = none) :
    localAux g (nid :: rest) seen body leaves =
      localAux g rest (insert nid seen) (body ++ [nid]) (leaves ++ [nid]) := by
  rw [localAux_cons, if_neg hmem, hlk]

theorem localAux_cons_leaf (g : Graph) (nid : Nat) (rest : List Nat)
    (seen : Finset Nat) (body leaves : List Nat) (hmem : nid ∉ seen)
    (o : Obj) (hlk : g.lookup nid = some o)
    (hemp : o.succ.isEmpty = true) :
    localAux g (nid :: rest) seen body leaves =
      localAux g rest (insert nid seen) (body ++ [nid]) (leaves ++ [nid]) := by
  rw [localAux_cons, if_neg hmem]
  simp only [hlk]
  rw [if_pos hemp]

theorem localAux_cons_expand (g : Graph) (nid : Nat) (rest : List Nat)
    (seen : Finset Nat) (body leaves : List Nat) (hmem : nid ∉ seen)
    (o : Obj) (hlk : g.lookup nid = some o)
    (hemp : ¬ o.succ.isEmpty = true) :
    localAux g (nid :: rest) seen body leaves =
      localAux g (rest ++ (sortKeys o.succ).filterMap (succGet o.succ))
        (insert nid seen) (body ++ [nid]) leaves := by
  rw [localAux_cons, if_neg hmem]
  simp only [hlk]
  rw [if_neg hemp]

theorem localAux_acc (g : Graph) (queue : List Nat) (seen : Finset Nat) :
    ∀ (body leaves : List Nat),
      localAux g queue seen body leaves =
        (body ++ (localAux g queue seen [] []).1,
          leaves ++ (localAux g queue seen [] []).2) := by
  refine localAux.induct g
    (fun q s _ _ => ∀ (body leaves : List Nat),
      localAux g q s body leaves =
        (body ++ (localAux g q s [] []).1, leaves ++ (localAux g q s [] []).2))
    ?_ ?_ ?_ ?_ ?_ queue seen [] []
  · intro s _ _ body leaves
    rw [localAux_nil, localAux_nil]
    simp
  · intro s _ _ nid rest hmem ih body leaves
    rw [localAux_cons_mem g nid rest s body leaves hmem,
      localAux_cons_mem g nid rest s [] [] hmem, ih body leaves]
  · intro s _ _ nid rest hmem hlk ih body leaves
    rw [localAux_cons_none g nid rest s body leaves hmem hlk,
      localAux_cons_none g nid rest s [] [] hmem hlk,
      ih (body ++ [nid]) (leaves ++ [nid]), ih ([] ++ [nid]) ([] ++ [nid])]
    simp
  · intro s _ _ nid rest hmem o hlk hemp ih body leaves
    rw [localAux_cons_leaf g nid rest s body leaves hmem o hlk hemp,
      localAux_cons_leaf g nid rest s [] [] hmem o hlk hemp,
      ih (body ++ [nid]) (leaves ++ [nid]), ih ([] ++ [nid]) ([] ++ [nid])]
    simp
  · intro s _ _ nid rest hmem o hlk hemp ih body leaves
    rw [localAux_cons_expand g nid rest s body leaves hmem o hlk hemp,
      localAux_cons_expand g nid rest s [] [] hmem o hlk hemp,
      ih (body ++ [nid]) leaves, ih ([] ++ [nid]) []]
    simp

theorem localAux_prefix (g : Graph) (queue : List Nat) (seen : Finset Nat)
    (body leaves : List Nat) :
    ∀ x ∈ body, x ∈ (localAux g queue seen body leaves).1 := by
  intro x hx
  rw [localAux_acc]
  exact List.mem_append.mpr (Or.inl hx)

/-- The local-traversal invariant: with the seen set mirroring the body,
every queued identity ends in the body, the body is duplicate-free, and
the body is closed under successor targets. -/
theorem localAux_inv (g : Graph) (queue : List Nat) (seen : Finset Nat)
    (body leaves : List Nat) :
    seen = body.toFinset → body.Nodup →
    (∀ x ∈ body, ∀ o, g.lookup x = some o →
      ∀ y ∈ succTargets o, y ∈ seen ∨ y ∈ queue) →
    (∀ x ∈ queue, x ∈ (localAux g queue seen body leaves).1) ∧
    (localAux g queue seen body leaves).1.Nodup ∧
    (∀ x ∈ (localAux g queue seen body leaves).1, ∀ o,
      g.lookup x = some o →
      ∀ y ∈ succTargets o, y ∈ (localAux g queue seen body leaves).1) := by
  induction queue, seen, body, leaves using localAux.induct g with
  | case1 seen body leaves =>
    intro hveq hnd hcl
    rw [localAux_nil]
    refine ⟨fun x hx => absurd hx (List.not_mem_nil x), hnd, ?_⟩
    intro x hx o ho y hy
    rcases hcl x hx o ho y hy with h | h
    · rw [hveq] at h
      exact List.mem_toFinset.mp h
    · exact absurd h (List.not_mem_nil y)
  | case2 seen body leaves nid rest hmem ih =>
    intro hveq hnd hcl
    rw [localAux_cons_mem g nid rest seen body leaves hmem]
    have hcl' : ∀ x ∈ body, ∀ o, g.lookup x = some o →
        ∀ y ∈ succTargets o, y ∈ seen ∨ y ∈ rest := by
      intro x hx o ho y hy
      rcases hcl x hx o ho y hy with h | h
      · exact Or.inl h
      · rcases List.mem_cons.mp h with h | h
        · subst h
          exact Or.inl hmem
        · exact Or.inr h
    obtain ⟨ha, hb, hc⟩ := ih hveq hnd hcl'
    refine ⟨?_, hb, hc⟩
    intro x hx
    rcases List.mem_cons.mp hx with h | h
    · subst h
      refine localAux_prefix g rest seen body leaves x ?_
      rw [hveq] at hmem
      exact List.mem_toFinset.mp hmem
    · exact ha x h
  | case3 seen body leaves nid rest hmem hlk ih =>
    intro hveq hnd hcl
    have hco : nid ∉ body := fun h => hmem (by
      rw [hveq]
      exact List.mem_toFinset.mpr h)
    have hveq' : insert nid seen = (body ++ [nid]).toFinset := by
      rw [hveq]
      ext y
      simp [or_comm]
    have hnd' : (body ++ [nid]).Nodup := by
      simp [List.nodup_append, hnd, hco]
    have hcl' : ∀ x ∈ body ++ [nid], ∀ o, g.lookup x = some o →
        ∀ y ∈ succTargets o, y ∈ insert nid seen ∨ y ∈ rest := by
      intro x hx o ho y hy
      rcases List.mem_append.mp hx with hx | hx
      · rcases hcl x hx o ho y hy with h | h
        · exact Or.inl (Finset.mem_insert_of_mem h)
        · rcases List.mem_cons.mp h with h | h
          · subst h
            exact Or.inl (Finset.mem_insert_self _ _)
          · exact Or.inr h
      · rw [List.mem_singleton] at hx
        subst hx
        exact Option.noConfusion (hlk.symm.trans ho)
    obtain ⟨ha, hb, hc⟩ := ih hveq' hnd' hcl'
    rw [localAux_cons_none g nid rest seen body leaves hmem hlk]
    refine ⟨?_, hb, hc⟩
    intro x hx
    rcases List.mem_cons.mp hx with h | h
    · subst h
      exact localAux_prefix g rest (insert x seen) (body ++ [x])
        (leaves ++ [x]) x
        (List.mem_append.mpr (Or.inr (List.mem_singleton.mpr rfl)))
    · exact ha x h
  | case4 seen body leaves nid rest hmem o hlk hemp ih =>
    intro hveq hnd hcl
    have hco : nid ∉ body := fun h => hmem (by
      rw [hveq]
      exact List.mem_toFinset.mpr h)
    have hveq' : insert nid seen = (body ++ [nid]).toFinset := by
      rw [hveq]
      ext y
      simp [or_comm]
    have hnd' : (body ++ [nid]).Nodup := by
      simp [List.nodup_append, hnd, hco]
    have hempty : succTargets o = [] := by
      have he : o.succ = [] := List.isEmpty_iff.mp hemp
      simp [succTargets, sortKeys, he]
    have hcl' : ∀ x ∈ body ++ [nid], ∀ o2, g.lookup x = some o2 →
        ∀ y ∈ succTargets o2, y ∈ insert nid seen ∨ y ∈ rest := by
      intro x hx o2 ho y hy
      rcases List.mem_append.mp hx with hx | hx
      · rcases hcl x hx o2 ho y hy with h | h
        · exact Or.inl (Finset.mem_insert_of_mem h)
        · rcases List.mem_cons.mp h with h | h
          · subst h
            exact Or.inl (Finset.mem_insert_self _ _)
          · exact Or.inr h
      · rw [List.mem_singleton] at hx
        subst hx
        have ho2 : o2 = o := Option.some.inj (ho.symm.trans hlk)
        subst ho2
        rw [hempty] at hy
        exact absurd hy (List.not_mem_nil y)
    obtain ⟨ha, hb, hc⟩ := ih hveq' hnd' hcl'
    rw [localAux_cons_leaf g nid rest seen body leaves hmem o hlk hemp]
    refine ⟨?_, hb, hc⟩
    intro x hx
    rcases List.mem_cons.mp hx with h | h
    · subst h
      exact localAux_prefix g rest (insert x seen) (body ++ [x])
        (leaves ++ [x]) x
        (List.mem_append.mpr (Or.inr (List.mem_singleton.mpr rfl)))
    · exact ha x h
  | case5 seen body leaves nid rest hmem o hlk hemp ih =>
    intro hveq hnd hcl
    have hco : nid ∉ body := fun h => hmem (by
      rw [hveq]
      exact List.mem_toFinset.mpr h)
    have hveq' : insert nid seen = (body ++ [nid]).toFinset := by
      rw [hveq]
      ext y
      simp [or_comm]
    have hnd' : (body ++ [nid]).Nodup := by
      simp [List.nodup_append, hnd, hco]
    have hcl' : ∀ x ∈ body ++ [nid], ∀ o2, g.lookup x = some o2 →
        ∀ y ∈ succTargets o2, y ∈ insert nid seen ∨
          y ∈ rest ++ succTargets o := by
      intro x hx o2 ho y hy
      rcases List.mem_append.mp hx with hx | hx
      · rcases hcl x hx o2 ho y hy with h | h
        · exact Or.inl (Finset.mem_insert_of_mem h)
        · rcases List.mem_cons.mp h with h | h
          · subst h
            exact Or.inl (Finset.mem_insert_self _ _)
          · exact Or.inr (List.mem_append.mpr (Or.inl h))
      · rw [List.mem_singleton] at hx
        subst hx
        have ho2 : o2 = o := Option.some.inj (ho.symm.trans hlk)
        subst ho2
        exact Or.inr (List.mem_append.mpr (Or.inr hy))
    obtain ⟨ha, hb, hc⟩ := ih hveq' hnd' hcl'
    rw [localAux_cons_expand g nid rest seen body leaves hmem o hlk hemp]
    refine ⟨?_, hb, hc⟩
    intro x hx
    rcases List.mem_cons.mp hx with h | h
    · subst h
      exact localAux_prefix g (rest ++ succTargets o) (insert x seen)
        (body ++ [x]) leaves x
        (List.mem_append.mpr (Or.inr (List.mem_singleton.mpr rfl)))
    · exact ha x (List.mem_append.mpr (Or.inl h))

/-- The flow-body facts downstream steps rely on: the resolved start
belongs to the body, the body is duplicate-free, and the body is closed
under successor targets. -/
theorem bodyListOf_inv (g : Graph) (q : Nat) :
    (∀ s, (g.lookup q).bind Obj.startNode = some s → s ∈ bodyListOf g q) ∧
    (bodyListOf g q).Nodup ∧
    (∀ a ∈ bodyListOf g q, ∀ o, g.lookup a = some o →
      ∀ y ∈ succTargets o, y ∈ bodyListOf g q) := by
  unfold bodyListOf
  cases hst : (g.lookup q).bind Obj.startNode with
  | none =>
    refine ⟨fun s hs => Option.noConfusion hs, List.nodup_nil, ?_⟩
    intro a ha
    exact absurd ha (List.not_mem_nil a)
  | some s0 =>
    obtain ⟨ha, hb, hc⟩ := localAux_inv g [s0] ∅ [] [] (by simp)
      List.nodup_nil (fun z hz => absurd hz (List.not_mem_nil z))
    refine ⟨?_, hb, hc⟩
    intro s hs
    have hss : s = s0 := (Option.some.inj hs).symm
    rw [hss]
    exact ha s0 (List.mem_singleton.mpr rfl)

theorem childFlowIdsOf_container {g : Graph} {order : List Nat}
    {fid x : Nat} (h : x ∈ childFlowIdsOf g order fid) :
    containerOf g order x = some fid := by
  unfold childFlowIdsOf at h
  rw [List.mem_mergeSort, List.mem_filter] at h
  have h2 := h.2
  simp only [Bool.and_eq_true, beq_iff_eq] at h2
  exact h2.2

theorem childFlowIdsOf_nodup (g : Graph) (order : List Nat) (fid : Nat) :
    (childFlowIdsOf g order fid).Nodup := by
  unfold childFlowIdsOf
  exact (List.mergeSort_perm _ _).symm.nodup
    (List.Nodup.filter _ (bodyListOf_inv g fid).2.1)

/-! ## Containment chains. -/

theorem chainUp_head_not_mem {g : Graph} {order : List Nat}
    {stack : Finset Nat} {x c : Nat} (h : ChainUp g order stack x c) :
    x ∉ stack := by
  cases h with
  | refl _ hx => exact hx
  | step _ hx _ => exact hx

theorem chainUp_interleave {g : Graph} {order : List Nat}
    {stack : Finset Nat} {x c1 : Nat} (h1 : ChainUp g order stack x c1) :
    ∀ {c2 : Nat}, ChainUp g order stack x c2 →
      ChainUp g order stack c1 c2 ∨ ChainUp g order stack c2 c1 := by
  induction h1 with
  | refl a ha =>
    intro c2 h2
    exact Or.inl h2
  | step hc hx h ih =>
    intro c2 h2
    cases h2 with
    | refl _ hx2 => exact Or.inr (ChainUp.step hc hx2 h)
    | step hc2 hx2 h2' =>
      have hy := Option.some.inj (hc.symm.trans hc2)
      rw [← hy] at h2'
      exact ih h2'

/-- Two chains from the same identity to children of one flow on the
stack end at the same child: the container mapping is a function, so the
climb is deterministic and cannot cross the stacked parent twice. -/
theorem chainUp_two_targets {g : Graph} {order : List Nat}
    {stack : Finset Nat} {x c1 c2 f : Nat}
    (h1 : ChainUp g order stack x c1) (h2 : ChainUp g order stack x c2)
    (hf1 : containerOf g order c1 = some f)
    (hf2 : containerOf g order c2 = some f) (hf : f ∈ stack) : c1 = c2 := by
  rcases chainUp_interleave h1 h2 with h | h
  · cases h with
    | refl _ _ => rfl
    | step hc hx h' =>
      have hy := Option.some.inj (hf1.symm.trans hc)
      rw [← hy] at h'
      exact absurd hf (chainUp_head_not_mem h')
  · cases h with
    | refl _ _ => rfl
    | step hc hx h' =>
      have hy := Option.some.inj (hf2.symm.trans hc)
      rw [← hy] at h'
      exact absurd hf (chainUp_head_not_mem h')

/-- Two chains from the same identity to container-less targets end at
the same target. -/
theorem chainUp_two_none {g : Graph} {order : List Nat}
    {stack : Finset Nat} {x c1 c2 : Nat}
    (h1 : ChainUp g order stack x c1) (h2 : ChainUp g order stack x c2)
    (hf1 : containerOf g order c1 = none)
    (hf2 : containerOf g order c2 = none) : c1 = c2 := by
  rcases chainUp_interleave h1 h2 with h | h
  · cases h with
    | refl _ _ => rfl
    | step hc _ _ => exact Option.noConfusion (hf1.symm.trans hc)
  · cases h with
    | refl _ _ => rfl
    | step hc _ _ => exact Option.noConfusion (hf2.symm.trans hc)

/-- Popping the parent off the stack extends a chain to its child into a
chain to the parent. -/
theorem chainUp_extend {g : Graph} {order : List Nat} {stack : Finset Nat}
    {f x c : Nat} (h : ChainUp g order (insert f stack) x c)
    (hf : f ∉ stack) :
    containerOf g order c = some f → ChainUp g order stack x f := by
  induction h with
  | refl a ha =>
    intro hc
    exact ChainUp.step hc (fun hmem => ha (Finset.mem_insert_of_mem hmem))
      (ChainUp.refl f hf)
  | step hc2 hx h' ih =>
    intro hc
    exact ChainUp.step hc2 (fun hmem => hx (Finset.mem_insert_of_mem hmem))
      (ih hc)

/-! ## No flow renders twice. -/

theorem subgraphEnterSt_renderedFlows (g : Graph) (order : List Nat)
    (ns : List (String × Nat)) (fid : Nat) (indent : String)
    (st : RenderSt) :
    (subgraphEnterSt g order ns fid indent st).renderedFlows =
      st.renderedFlows :=
  rfl

theorem subgraphExitSt_renderedFlows (g : Graph) (order : List Nat)
    (redges : List (Nat × String × Nat)) (sd : Bool) (fid : Nat)
    (indent : String) (st : RenderSt) :
    (subgraphExitSt g order redges sd fid indent st).renderedFlows =
      insert fid st.renderedFlows :=
  rfl

/-- The per-call rendering invariant: a subgraph-rendering call appends a
duplicate-free block of opened flows, each climbing by a containment
chain (avoiding the stack) to the called flow; the rendered-flows set
only grows, and it records the called flow whenever anything was
opened. -/
theorem renderFlow_opened_chain (g : Graph) (order : List Nat)
    (ns : List (String × Nat)) (redges : List (Nat × String × Nat))
    (sd : Bool) (stack : Finset Nat) (fid : Nat) (indent : String)
    (st : RenderSt) :
    ∃ d : List Nat,
      (renderFlow g order ns redges sd stack fid indent st).opened =
        st.opened ++ d ∧
      d.Nodup ∧ (∀ x ∈ d, ChainUp g order stack x fid) ∧
      (∀ y ∈ st.renderedFlows,
        y ∈ (renderFlow g order ns redges sd stack fid indent
          st).renderedFlows) ∧
      (d ≠ [] → fid ∈ (renderFlow g order ns redges sd stack fid indent
        st).renderedFlows) := by
  refine renderFlow.induct g order ns redges sd
    (fun stack fid indent _ => ∀ st, ∃ d : List Nat,
      (renderFlow g order ns redges sd stack fid indent st).opened =
        st.opened ++ d ∧
      d.Nodup ∧ (∀ x ∈ d, ChainUp g order stack x fid) ∧
      (∀ y ∈ st.renderedFlows,
        y ∈ (renderFlow g order ns redges sd stack fid indent
          st).renderedFlows) ∧
      (d ≠ [] → fid ∈ (renderFlow g order ns redges sd stack fid indent
        st).renderedFlows))
    (fun stack l indent _ => ∀ st (f : Nat), l.Nodup → f ∈ stack →
      (∀ c ∈ l, containerOf g order c = some f) →
      ∃ d : List Nat,
        (renderFlowList g order ns redges sd stack l indent st).opened =
          st.opened ++ d ∧
        d.Nodup ∧
        (∀ x ∈ d, ∃ c ∈ l, ChainUp g order stack x c) ∧
        (∀ y ∈ st.renderedFlows,
          y ∈ (renderFlowList g order ns redges sd stack l indent
            st).renderedFlows))
    ?_ ?_ ?_ ?_ ?_ stack fid indent st st
  · intro stack fid indent _ h st
    rw [renderFlow_mem g order ns redges sd stack fid indent st h]
    exact ⟨[], by simp, List.nodup_nil,
      fun x hx => absurd hx (List.not_mem_nil x),
      fun y hy => hy, fun hne => absurd rfl hne⟩
  · intro stack fid indent _ h hnone st
    rw [renderFlow_eval g order ns redges sd stack fid indent st h]
    simp only [hnone]
    exact ⟨[], by simp, List.nodup_nil,
      fun x hx => absurd hx (List.not_mem_nil x),
      fun y hy => hy, fun hne => absurd rfl hne⟩
  · intro stack fid indent _ h o hl ih st
    rw [renderFlow_eval g order ns redges sd stack fid indent st h]
    simp only [hl]
    obtain ⟨d2, hop2, hnd2, hch2, hrf2⟩ :=
      ih (subgraphEnterSt g order ns fid indent st) fid
        (childFlowIdsOf_nodup g order fid)
        (Finset.mem_insert_self fid stack)
        (fun c hc => childFlowIdsOf_container hc)
    refine ⟨fid :: d2, ?_, ?_, ?_, ?_, ?_⟩
    · rw [subgraphExitSt_opened, hop2, subgraphEnterSt_opened]
      simp
    · refine List.nodup_cons.mpr ⟨?_, hnd2⟩
      intro hmem
      obtain ⟨c, hc, hchain⟩ := hch2 fid hmem
      exact absurd (Finset.mem_insert_self fid stack)
        (chainUp_head_not_mem hchain)
    · intro x hx
      rcases List.mem_cons.mp hx with hx | hx
      · rw [hx]
        exact ChainUp.refl fid h
      · obtain ⟨c, hc, hchain⟩ := hch2 x hx
        exact chainUp_extend hchain h (childFlowIdsOf_container hc)
    · intro y hy
      rw [subgraphExitSt_renderedFlows]
      exact Finset.mem_insert_of_mem (hrf2 y hy)
    · intro _
      rw [subgraphExitSt_renderedFlows]
      exact Finset.mem_insert_self _ _
  · intro stack indent _ st f hnd hf hcont
    rw [renderFlowList_nil]
    exact ⟨[], by simp, List.nodup_nil,
      fun x hx => absurd hx (List.not_mem_nil x), fun y hy => hy⟩
  · intro stack indent _ cid rest ih1 ih2 st f hnd hf hcont
    rw [renderFlowList_cons]
    obtain ⟨d1, hop1, hnd1, hch1, hrf1, hne1⟩ := ih1 st
    obtain ⟨d2, hop2, hnd2, hch2, hrf2⟩ := ih2
      (renderFlow g order ns redges sd stack cid indent st) f
      (List.Nodup.of_cons hnd) hf
      (fun c hc => hcont c (List.mem_cons_of_mem _ hc))
    refine ⟨d1 ++ d2, ?_, ?_, ?_, ?_⟩
    · rw [hop2, hop1, List.append_assoc]
    · refine List.Nodup.append hnd1 hnd2 ?_
      intro a ha1 ha2
      obtain ⟨c2, hc2, hchain2⟩ := hch2 a ha2
      have heq : cid = c2 := chainUp_two_targets (hch1 a ha1) hchain2
        (hcont cid (List.mem_cons_self _ _))
        (hcont c2 (List.mem_cons_of_mem _ hc2)) hf
      exact (List.nodup_cons.mp hnd).1 (by rw [heq]; exact hc2)
    · intro x hx
      rcases List.mem_append.mp hx with hx | hx
      · exact ⟨cid, List.mem_cons_self _ _, hch1 x hx⟩
      · obtain ⟨c2, hc2, hchain2⟩ := hch2 x hx
        exact ⟨c2, List.mem_cons_of_mem _ hc2, hchain2⟩
    · intro y hy
      exact hrf2 y (hrf1 y hy)

/-- One top-level loop step preserves the rendering invariant: a new tree
target has no container and is not yet rendered, so its delta cannot meet
anything already opened. -/
theorem topFlowStep_Q (g : Graph) (order : List Nat)
    (ns : List (String × Nat)) (redges : List (Nat × String × Nat))
    (sd : Bool) (root : Nat) (st : RenderSt) (fid : Nat)
    (hq : QInv g order st) :
    QInv g order (topFlowStep g order ns redges sd root st fid) := by
  unfold topFlowStep
  by_cases hc : fid ≠ root ∧ fid ∈ expandedFlowIds g order ∧
      containerOf g order fid = none ∧ fid ∉ st.renderedFlows
  · rw [if_pos hc]
    obtain ⟨d, hop, hnd, hch, hrf, hne⟩ :=
      renderFlow_opened_chain g order ns redges sd ∅ fid "  " st
    refine ⟨?_, ?_⟩
    · rw [hop]
      refine List.Nodup.append hq.1 hnd ?_
      intro a ha1 ha2
      obtain ⟨t, hcht, hctn, htrf⟩ := hq.2 a ha1
      have hteq : t = fid := chainUp_two_none hcht (hch a ha2) hctn hc.2.2.1
      exact hc.2.2.2 (by rw [← hteq]; exact htrf)
    · intro x hx
      rw [hop] at hx
      rcases List.mem_append.mp hx with hx | hx
      · obtain ⟨t, hcht, hctn, htrf⟩ := hq.2 x hx
        exact ⟨t, hcht, hctn, hrf t htrf⟩
      · refine ⟨fid, hch x hx, hc.2.2.1, ?_⟩
        refine hne ?_
        intro he
        rw [he] at hx
        exact absurd hx (List.not_mem_nil x)
  · rw [if_neg hc]
    exact hq

theorem foldl_Q (g : Graph) (order : List Nat) {α : Type}
    (step : RenderSt → α → RenderSt)
    (hstep : ∀ st a, QInv g order st → QInv g order (step st a)) :
    ∀ (l : List α) (st : RenderSt), QInv g order st →
      QInv g order (l.foldl step st) := by
  intro l
  induction l with
  | nil =>
    intro st hq
    rw [List.foldl_nil]
    exact hq
  | cons a t ih =>
    intro st hq
    rw [List.foldl_cons]
    exact ih _ (hstep st a hq)

theorem topFlowStep_noop (g : Graph) (order : List Nat)
    (ns : List (String × Nat)) (redges : List (Nat × String × Nat))
    (sd : Bool) (root : Nat) (st : RenderSt) (fid : Nat)
    (h : containerOf g order fid ≠ none) :
    topFlowStep g order ns redges sd root st fid = st := by
  unfold topFlowStep
  rw [if_neg (fun hc => h hc.2.2.1)]

theorem foldl_topFlowStep_noop (g : Graph) (order : List Nat)
    (ns : List (String × Nat)) (redges : List (Nat × String × Nat))
    (sd : Bool) (root : Nat) :
    ∀ l : List Nat, (∀ fid ∈ l, containerOf g order fid ≠ none) →
    ∀ st, l.foldl (topFlowStep g order ns redges sd root) st = st := by
  intro l
  induction l with
  | nil =>
    intro _ st
    rw [List.foldl_nil]
  | cons a t ih =>
    intro h st
    rw [List.foldl_cons, topFlowStep_noop g order ns redges sd root st a
      (h a (List.mem_cons_self _ _))]
    exact ih (fun fid hf => h fid (List.mem_cons_of_mem _ hf)) st

/-- When the entry object lies in some discovered flow's body, so does
every discovered identity: discovery only leaves a body through a
`start_node` hop (into the hopping flow's own body) or a successor hop
(staying in the same body). -/
theorem reach_inBody (g : Graph) (root : Nat) (order : List Nat)
    (horder : ∀ z, z ∈ order ↔ Reach g root z) (q0 : Nat)
    (hq0 : q0 ∈ flowIds g order) (hroot : root ∈ bodyListOf g q0) :
    ∀ x, Reach g root x →
      ∃ q, q ∈ flowIds g order ∧ x ∈ bodyListOf g q := by
  intro x hx
  induction hx with
  | entry => exact ⟨q0, hq0, hroot⟩
  | @step a b o ha hlk hb ih =>
    obtain ⟨q, hq, haq⟩ := ih
    unfold childTargets at hb
    rcases List.mem_append.mp hb with hb | hb
    · by_cases hf : o.isFlow = true
      · rw [if_pos hf] at hb
        cases hso : o.startNode with
        | none =>
          rw [hso] at hb
          exact absurd hb (List.not_mem_nil b)
        | some s =>
          rw [hso] at hb
          simp only [Option.toList_some, List.mem_singleton] at hb
          have hstart : (g.lookup a).bind Obj.startNode = some s := by
            rw [hlk]
            show o.startNode = some s
            exact hso
          refine ⟨a, ?_, ?_⟩
          · unfold flowIds
            rw [List.mem_filter]
            refine ⟨(horder a).mpr ha, ?_⟩
            unfold isFlowId
            rw [hlk]
            exact hf
          · rw [hb]
            exact (bodyListOf_inv g a).1 s hstart
      · rw [if_neg hf] at hb
        exact absurd hb (List.not_mem_nil b)
    · exact ⟨q, hq, (bodyListOf_inv g q).2.2 a haq o hlk b hb⟩

/-- The opened subgraph blocks of a successful run are duplicate-free: no
flow identity is rendered as a subgraph twice. -/
theorem visualizeCore_opened_nodup (g : Graph) (root : Nat)
    (ns : List (String × Nat)) (dir : Option String) (sd hs : Bool)
    (m : Int) (c : CoreOut)
    (h : visualizeCore g root ns dir sd hs m = .ok c) :
    c.opened.Nodup := by
  unfold visualizeCore at h
  by_cases h1 : directionU dir ∉ validDirections
  · rw [if_pos h1] at h
    exact absurd h (by simp)
  · rw [if_neg h1] at h
    by_cases h2 : m ≤ 0
    · rw [if_pos h2] at h
      exact absurd h (by simp)
    · rw [if_neg h2] at h
      cases hd : discover g root m.toNat with
      | error e =>
        rw [hd] at h
        exact absurd h (by simp)
      | ok oe =>
        rw [hd] at h
        obtain ⟨order, edges⟩ := oe
        simp only [Except.ok.injEq] at h
        subst h
        simp only
        rw [foldl_opened_eq (topDeclStep g order ns)
          (topDeclStep_opened g order ns) order]
        have horder : (order, edges) = bfs g root := by
          have hspec := discover_spec g root m.toNat
          rw [hd] at hspec
          by_cases hlen : m.toNat < (bfs g root).1.length
          · rw [if_pos hlen] at hspec
            exact absurd hspec (by simp)
          · rw [if_neg hlen] at hspec
            exact Except.ok.inj hspec
        have hmemiff : ∀ z, z ∈ order ↔ Reach g root z := by
          intro z
          rw [show order = (bfs g root).1 by rw [← horder]]
          exact bfs_mem_iff g root z
        cases hroot : containerOf g order root with
        | some p =>
          have hfind : (flowIds g order).find?
              (fun fid => decide (root ∈ bodyListOf g fid)) = some p := by
            rw [← containerOf_eq_find]
            exact hroot
          have hq0 : p ∈ flowIds g order := List.mem_of_find?_eq_some hfind
          have hrb : root ∈ bodyListOf g p := by
            have hps := List.find?_some hfind
            simpa using hps
          have hall : ∀ fid ∈ flowIds g order,
              containerOf g order fid ≠ none := by
            intro fid hfid hnone
            have hreach : Reach g root fid :=
              (hmemiff fid).mp (List.mem_filter.mp hfid).1
            obtain ⟨q, hq, hbody⟩ := reach_inBody g root order hmemiff p hq0
              hrb fid hreach
            rw [containerOf_eq_find, List.find?_eq_none] at hnone
            exact hnone q hq (by simpa using hbody)
          rw [foldl_topFlowStep_noop g order ns (renderEdgesOf g order edges)
            sd root (flowIds g order) hall]
          by_cases hexp : root ∈ expandedFlowIds g order
          · rw [if_pos hexp]
            obtain ⟨d, hop, hnd, -, -, -⟩ := renderFlow_opened_chain g order
              ns (renderEdgesOf g order edges) sd ∅ root "  " _
            rw [hop]
            exact hnd
          · rw [if_neg hexp]
            exact List.nodup_nil
        | none =>
          refine (foldl_Q g order _
            (topFlowStep_Q g order ns (renderEdgesOf g order edges) sd root)
            (flowIds g order) _ ?_).1
          by_cases hexp : root ∈ expandedFlowIds g order
          · rw [if_pos hexp]
            obtain ⟨d, hop, hnd, hch, hrf, hne⟩ := renderFlow_opened_chain g
              order ns (renderEdgesOf g order edges) sd ∅ root "  " _
            refine ⟨?_, ?_⟩
            · rw [hop]
              exact hnd
            · intro x hx
              rw [hop] at hx
              have hx0 : x ∈ d := by
                rcases List.mem_append.mp hx with h0 | h0
                · exact absurd h0 (List.not_mem_nil x)
                · exact h0
              refine ⟨root, hch x hx0, hroot, ?_⟩
              refine hne ?_
              intro he
              rw [he] at hx0
              exact absurd hx0 (List.not_mem_nil x)
          · rw [if_neg hexp]
            exact ⟨List.nodup_nil, fun x hx => absurd hx (List.not_mem_nil x)⟩

/-- C5: re-entering a flow identity already on the active rendering stack
returns the state unchanged (no emission), and in every successful run
the opened subgraph blocks are duplicate-free — no flow identity is
rendered as a subgraph twice. -/
theorem claim_C5 :
    (∀ (g : Graph) (order : List Nat) (ns : List (String × Nat))
        (redges : List (Nat × String × Nat)) (sd : Bool)
        (stack : Finset Nat) (fid : Nat) (indent : String) (st : RenderSt),
        fid ∈ stack →
        renderFlow g order ns redges sd stack fid indent st = st) ∧
    (∀ (g : Graph) (root : Nat) (ns : List (String × Nat))
        (dir : Option String) (sd hs : Bool) (m : Int) (c : CoreOut),
        visualizeCore g root ns dir sd hs m = .ok c → c.opened.Nodup) :=
  ⟨fun g order ns redges sd stack fid indent st h =>
    renderFlow_mem g order ns redges sd stack fid indent st h,
   fun g root ns dir sd hs m c h =>
    visualizeCore_opened_nodup g root ns dir sd hs m c h⟩

/-- C5 witness: the stack guard applied concretely, and a concrete
successful run with duplicate-free opened blocks. -/
theorem claim_C5_witness :
    renderFlow gSimple [1, 2] [] [] false {1} 1 "  "
      ⟨[], ⟨[], [], ∅, ∅, []⟩, ∅, [], []⟩ =
      ⟨[], ⟨[], [], ∅, ∅, []⟩, ∅, [], []⟩ ∧
    ∃ c, visualizeCore gSimple 1 [] (some "LR") false false 10 = .ok c ∧
      c.opened.Nodup := by
  have hlen : (bfs gSimple 1).1 = [1, 2] := by
    simp [bfs, bfsAux_cons, bfsAux_nil, Graph.lookup, gSimple, childTargets,
      sortKeys, succGet, expandEdges]
  constructor
  · exact claim_C5.1 gSimple [1, 2] [] [] false {1} 1 "  "
      ⟨[], ⟨[], [], ∅, ∅, []⟩, ∅, [], []⟩ (by decide)
  · obtain ⟨c, hc⟩ := visualizeCore_discover_ok gSimple 1 [] (some "LR")
      false false 10 (bfs gSimple 1) (by decide) (by decide)
      (by rw [discover_spec, if_neg (by rw [hlen]; decide)])
    exact ⟨c, hc, claim_C5.2 gSimple 1 [] (some "LR") false false 10 c hc⟩

end Mermaid
